import Mathlib

/-!
CORS middleware (`cors.go`): embedding and verified properties

The Go package consists of the predicate `isAllowedOrigin` and the constructor `New`,
which returns a middleware closure over a `Config`.  The middleware reads the request's
`Origin` header and method, mutates the response header collection and hands control to
the next handler with `ctx.Next()`.

Go strings are embedded as Lean `String`s; `len(b) > 0` on a byte slice is `0 < s.length`
(a string has no bytes exactly when it has no characters).  `Config.AllowMaxAge` is a Go
`int`; no arithmetic is done on it, so it is embedded as `Int`.

The HTTP host library is not part of the sources: its header store (`Header.Peek`,
`Header.Lookup`, `Header.Set`) and its continue primitive (`RequestCtx.Next`) are modelled
from the specification.  `decimalValue` and `parseDecimal` are the specification side of
"the decimal string form" of `AllowMaxAge`.
-/

namespace Cors

/-! ## Host environment: header store, request context, continue primitive -/

/-- Modelled from the spec: the header collection of the HTTP host library (its code is
not part of the sources).  It is an ordered sequence of name/value entries. -/
abbrev Header := List (String × String)

/-- Modelled from the spec: reading a header gives the value of the first entry with that
name, and the empty string when there is none ("may be absent, treated as empty"). -/
def Header.Peek : Header → String → String
  | [], _ => ""
  | (k, v) :: rest, key => if k = key then v else Header.Peek rest key

/-- Modelled from the spec: the first entry with a given name, if any: `none` is "unset",
`some v` is "set, with value `v`".  `Peek` is this with `none` read as the empty string. -/
def Header.Lookup : Header → String → Option String
  | [], _ => none
  | (k, v) :: rest, key => if k = key then some v else Header.Lookup rest key

/-- Modelled from the spec: setting a header overwrites the value of the first entry with
that name and adds a new entry at the end when there is none; no other entry changes. -/
def Header.Set : Header → String → String → Header
  | [], key, value => [(key, value)]
  | (k, v) :: rest, key, value =>
    if k = key then (k, value) :: rest else (k, v) :: Header.Set rest key value

/-- The request as far as a middleware can observe it. -/
structure Request where
  /-- The HTTP method as observed through `ctx.Method()`. -/
  Method : String
  /-- The request URI. -/
  URI : String
  /-- The request headers. -/
  Header : Header
  /-- The request body. -/
  Body : String
  deriving DecidableEq

/-- The response as far as a middleware can observe it. -/
structure Response where
  /-- The response headers. -/
  Header : Header
  /-- The response body. -/
  Body : String
  deriving DecidableEq

/-- The request context handed to a middleware.  `nextCalls` is a ghost counter: the number
of times the continue primitive has been invoked on this context. -/
structure RequestCtx where
  Request : Request
  Response : Response
  nextCalls : Nat
  deriving DecidableEq

/-- Modelled from the spec: the "continue to next handler" primitive `ctx.Next()` of the
host framework.  The host decides what it returns (`none` is Go's `nil` error) from the
context it is called on; the call is recorded in the ghost counter. -/
def RequestCtx.Next {ε : Type} (host : RequestCtx → Option ε) (ctx : RequestCtx) :
    RequestCtx × Option ε :=
  ({ ctx with nextCalls := ctx.nextCalls + 1 }, host ctx)

/-! ## Constants of the host library and of the package -/

def HeaderOrigin : String := "Origin"
def HeaderVary : String := "Vary"
def HeaderAccessControlAllowOrigin : String := "Access-Control-Allow-Origin"
def HeaderAccessControlAllowCredentials : String := "Access-Control-Allow-Credentials"
def HeaderAccessControlExposeHeaders : String := "Access-Control-Expose-Headers"
def HeaderAccessControlAllowHeaders : String := "Access-Control-Allow-Headers"
def HeaderAccessControlAllowMethods : String := "Access-Control-Allow-Methods"
def HeaderAccessControlMaxAge : String := "Access-Control-Max-Age"
def MethodOptions : String := "OPTIONS"

/-- The constant `strHeaderDelim = ", "`. -/
def strHeaderDelim : String := ", "

/-! ## Standard-library helpers used by `New` -/

/-- The loop of Go's `strings.Join`: every remaining element is written after a separator. -/
def joinRest (sep : String) : String → List String → String
  | acc, [] => acc
  | acc, s :: rest => joinRest sep (acc ++ sep ++ s) rest

/-- Go's `strings.Join(elems, sep)`. -/
def stringsJoin : List String → String → String
  | [], _ => ""
  | [a], _ => a
  | a :: rest, sep => joinRest sep a rest

/-- Go's `strconv.Itoa`: base-10 text of an integer, with a leading `-` when negative. -/
def Itoa : Int → String
  | Int.ofNat n => Nat.repr n
  | Int.negSucc n => "-" ++ Nat.repr (n + 1)

/-! ## The package -/

/-- The struct `Config`. -/
structure Config where
  AllowedOrigins : List String
  AllowedMethods : List String
  AllowedHeaders : List String
  AllowCredentials : Bool
  AllowMaxAge : Int
  ExposedHeaders : List String
  deriving DecidableEq

/-- The function `isAllowedOrigin(allowed []string, origin string) bool`: the
`for ... range` loop with its early `return true`. -/
def isAllowedOrigin : List String → String → Bool
  | [], _ => false
  | v :: rest, origin =>
    if v = origin ∨ v = "*" then true else isAllowedOrigin rest origin

/-- The statement `ctx.Response.Header.Set(key, value)` (also `SetBytesV`). -/
def RequestCtx.setResponseHeader (ctx : RequestCtx) (key value : String) : RequestCtx :=
  { ctx with Response := { ctx.Response with Header := ctx.Response.Header.Set key value } }

/-- The function `New(cfg Config) atreugo.Middleware`.  The four strings are computed once, before
the closure; the closure is the function of the context, relative to the host that answers
`ctx.Next()`. -/
def New {ε : Type} (cfg : Config) (host : RequestCtx → Option ε) (ctx : RequestCtx) :
    RequestCtx × Option ε :=
  let allowedHeaders := stringsJoin cfg.AllowedHeaders strHeaderDelim
  let allowedMethods := stringsJoin cfg.AllowedMethods strHeaderDelim
  let exposedHeaders := stringsJoin cfg.ExposedHeaders strHeaderDelim
  let maxAge := Itoa cfg.AllowMaxAge
  let origin := ctx.Request.Header.Peek HeaderOrigin
  if ¬ isAllowedOrigin cfg.AllowedOrigins origin then
    ctx.Next host
  else
    let ctx := ctx.setResponseHeader HeaderAccessControlAllowOrigin origin
    let ctx := if cfg.AllowCredentials then
        ctx.setResponseHeader HeaderAccessControlAllowCredentials "true"
      else ctx
    let varyHeader := ctx.Response.Header.Peek HeaderVary
    let varyHeader := if 0 < varyHeader.length then varyHeader ++ strHeaderDelim
      else varyHeader
    let varyHeader := varyHeader ++ HeaderOrigin
    let ctx := ctx.setResponseHeader HeaderVary varyHeader
    let ctx := if 0 < cfg.ExposedHeaders.length then
        ctx.setResponseHeader HeaderAccessControlExposeHeaders exposedHeaders
      else ctx
    let method := ctx.Request.Method
    if method ≠ MethodOptions then
      ctx.Next host
    else
      let ctx := if 0 < cfg.AllowedHeaders.length then
          ctx.setResponseHeader HeaderAccessControlAllowHeaders allowedHeaders
        else ctx
      let ctx := if 0 < cfg.AllowedMethods.length then
          ctx.setResponseHeader HeaderAccessControlAllowMethods allowedMethods
        else ctx
      let ctx := if 0 < cfg.AllowMaxAge then
          ctx.setResponseHeader HeaderAccessControlMaxAge maxAge
        else ctx
      ctx.Next host

/-! ## The straight-line blocks of the middleware, named for the proofs -/

/-- A guarded `Set`: the shape `if c { ctx.Response.Header.Set(key, value) }`. -/
def condSet (c : Prop) [Decidable c] (ctx : RequestCtx) (key value : String) : RequestCtx :=
  if c then ctx.setResponseHeader key value else ctx

/-- The new `Vary` value computed from the current one (`cors.go`, lines 76-81). -/
def varyValue (v : String) : String :=
  (if 0 < v.length then v ++ strHeaderDelim else v) ++ HeaderOrigin

/-- The mutations done for every allowed request (`cors.go`, lines 70-86). -/
def annotateCommon (cfg : Config) (ctx : RequestCtx) : RequestCtx :=
  let c1 := ctx.setResponseHeader HeaderAccessControlAllowOrigin
    (ctx.Request.Header.Peek HeaderOrigin)
  let c2 := condSet (cfg.AllowCredentials = true) c1 HeaderAccessControlAllowCredentials "true"
  let c3 := c2.setResponseHeader HeaderVary (varyValue (c2.Response.Header.Peek HeaderVary))
  condSet (0 < cfg.ExposedHeaders.length) c3 HeaderAccessControlExposeHeaders
    (stringsJoin cfg.ExposedHeaders strHeaderDelim)

/-- The mutations done for preflight requests only (`cors.go`, lines 93-103). -/
def annotatePreflight (cfg : Config) (ctx : RequestCtx) : RequestCtx :=
  let c1 := condSet (0 < cfg.AllowedHeaders.length) ctx HeaderAccessControlAllowHeaders
    (stringsJoin cfg.AllowedHeaders strHeaderDelim)
  let c2 := condSet (0 < cfg.AllowedMethods.length) c1 HeaderAccessControlAllowMethods
    (stringsJoin cfg.AllowedMethods strHeaderDelim)
  condSet (0 < cfg.AllowMaxAge) c2 HeaderAccessControlMaxAge (Itoa cfg.AllowMaxAge)

/-- The context on which the middleware calls `ctx.Next()`. -/
def annotate (cfg : Config) (ctx : RequestCtx) : RequestCtx :=
  if ¬ isAllowedOrigin cfg.AllowedOrigins (ctx.Request.Header.Peek HeaderOrigin) then ctx
  else if ctx.Request.Method ≠ MethodOptions then annotateCommon cfg ctx
  else annotatePreflight cfg (annotateCommon cfg ctx)

/-! ## Reading a decimal header value back (the spec side of `Access-Control-Max-Age`) -/

/-- The number written by a list of decimal digits, most significant digit first. -/
def decimalValue (l : List Char) : Nat :=
  l.foldl (fun acc c => 10 * acc + (c.toNat - '0'.toNat)) 0

/-- Parsing a header value as a decimal integer: defined for non-empty strings of the
digits `0`..`9` only (no sign, no blank). -/
def parseDecimal (s : String) : Option Nat :=
  if s.data ≠ [] ∧ s.data.all Char.isDigit = true then some (decimalValue s.data) else none

/-! ## Test fixtures (`cors_test.go`) -/

/-- The policy of the first case of `Test_New`. -/
def cfgA : Config :=
  { AllowedOrigins := ["https://other.domain.test", "https://cors.test"]
    AllowedHeaders := ["Content-Type", "X-Custom"]
    AllowedMethods := ["GET", "POST", "DELETE"]
    ExposedHeaders := ["Content-Length", "Authorization"]
    AllowCredentials := true
    AllowMaxAge := 5600 }

/-- The policy of the second case of `Test_New`: wildcard origins. -/
def cfgB : Config := { cfgA with AllowedOrigins := ["*"] }

/-- The policy of the third case of `Test_New`: the request origin is not listed. -/
def cfgC : Config := { cfgA with AllowedOrigins := ["https://other.domain.test"] }

/-- A context as the test builds it: method, `Origin` request header, `Vary` response
header. -/
def mkCtx (method origin vary : String) : RequestCtx :=
  { Request := { Method := method, URI := "/", Header := [(HeaderOrigin, origin)], Body := "" }
    Response := { Header := [(HeaderVary, vary)], Body := "" }
    nextCalls := 0 }

/-- A host whose continue primitive always succeeds (returns `nil`). -/
def hostOk : RequestCtx → Option String := fun _ => none

/-- A host that reports the response headers it observes when `ctx.Next()` is called. -/
def hostObserve : RequestCtx → Option Header := fun c => some c.Response.Header

/-- A host whose continue primitive always fails with the given error. -/
def hostFail (e : String) : RequestCtx → Option String := fun _ => some e

/-- A richer context: the request carries other headers, a URI and a body, and the response
already has unrelated headers and a body. -/
def ctxRich (method origin : String) : RequestCtx :=
  { Request :=
      { Method := method, URI := "/api/items?id=7"
        Header := [("Cookie", "sid=1"), (HeaderOrigin, origin), ("Accept", "*/*")]
        Body := "payload" }
    Response :=
      { Header := [("Content-Type", "text/plain"), (HeaderVary, "Accept-Encoding")]
        Body := "ok" }
    nextCalls := 0 }

/-- The same request as far as the middleware reads it (method, `Origin`), with another URI,
other request headers and another body; the response headers are those of `ctxRich`. -/
def ctxRichOther (method origin : String) : RequestCtx :=
  { Request :=
      { Method := method, URI := "/elsewhere"
        Header := [(HeaderOrigin, origin), ("User-Agent", "probe")]
        Body := "" }
    Response :=
      { Header := [("Content-Type", "text/plain"), (HeaderVary, "Accept-Encoding")]
        Body := "different" }
    nextCalls := 3 }

/-- A request without `Origin` header, on a response with the given `Vary` value. -/
def ctxNoOrigin (method vary : String) : RequestCtx :=
  { Request := { Method := method, URI := "/", Header := [("Accept", "*/*")], Body := "" }
    Response := { Header := [(HeaderVary, vary)], Body := "" }
    nextCalls := 0 }

/-! ## The header store -/

theorem Header.Peek_Set_same (h : Header) (key value : String) :
    (h.Set key value).Peek key = value := by
  induction h with
  | nil => simp [Header.Set, Header.Peek]
  | cons e rest ih =>
    obtain ⟨k, v⟩ := e
    by_cases hk : k = key
    · simp [Header.Set, Header.Peek, hk]
    · simp [Header.Set, Header.Peek, hk, ih]

theorem Header.Peek_Set_other (h : Header) (key value other : String) (hne : key ≠ other) :
    (h.Set key value).Peek other = h.Peek other := by
  induction h with
  | nil => simp [Header.Set, Header.Peek, hne]
  | cons e rest ih =>
    obtain ⟨k, v⟩ := e
    by_cases hk : k = key
    · subst hk
      simp [Header.Set, Header.Peek, hne]
    · by_cases ho : k = other
      · subst ho
        simp [Header.Set, Header.Peek, hk]
      · simp [Header.Set, Header.Peek, hk, ho, ih]

theorem Header.Peek_eq_Lookup (h : Header) (key : String) :
    h.Peek key = (h.Lookup key).getD "" := by
  induction h with
  | nil => rfl
  | cons e rest ih =>
    obtain ⟨k, v⟩ := e
    by_cases hk : k = key
    · simp [Header.Peek, Header.Lookup, hk]
    · simp [Header.Peek, Header.Lookup, hk, ih]

theorem Header.Lookup_Set_other (h : Header) (key value other : String) (hne : key ≠ other) :
    (h.Set key value).Lookup other = h.Lookup other := by
  induction h with
  | nil => simp [Header.Set, Header.Lookup, hne]
  | cons e rest ih =>
    obtain ⟨k, v⟩ := e
    by_cases hk : k = key
    · subst hk
      simp [Header.Set, Header.Lookup, hne]
    · by_cases ho : k = other
      · subst ho
        simp [Header.Set, Header.Lookup, hk]
      · simp [Header.Set, Header.Lookup, hk, ho, ih]

theorem setResponseHeader_Lookup_other (ctx : RequestCtx) (key value other : String)
    (hne : key ≠ other) :
    (ctx.setResponseHeader key value).Response.Header.Lookup other
      = ctx.Response.Header.Lookup other := by
  simp [RequestCtx.setResponseHeader, Header.Lookup_Set_other _ _ _ _ hne]

theorem setResponseHeader_Peek_same (ctx : RequestCtx) (key value : String) :
    (ctx.setResponseHeader key value).Response.Header.Peek key = value := by
  simp [RequestCtx.setResponseHeader, Header.Peek_Set_same]

theorem setResponseHeader_Peek_other (ctx : RequestCtx) (key value other : String)
    (hne : key ≠ other) :
    (ctx.setResponseHeader key value).Response.Header.Peek other
      = ctx.Response.Header.Peek other := by
  simp [RequestCtx.setResponseHeader, Header.Peek_Set_other _ _ _ _ hne]

theorem setResponseHeader_Request (ctx : RequestCtx) (key value : String) :
    (ctx.setResponseHeader key value).Request = ctx.Request := rfl

theorem setResponseHeader_nextCalls (ctx : RequestCtx) (key value : String) :
    (ctx.setResponseHeader key value).nextCalls = ctx.nextCalls := rfl

theorem Next_fst_Response {ε : Type} (host : RequestCtx → Option ε) (ctx : RequestCtx) :
    (ctx.Next host).1.Response = ctx.Response := rfl

/-! ## The middleware and its steps -/

theorem condSet_Request (c : Prop) [Decidable c] (ctx : RequestCtx) (key value : String) :
    (condSet c ctx key value).Request = ctx.Request := by
  unfold condSet
  split_ifs <;> rfl

theorem condSet_nextCalls (c : Prop) [Decidable c] (ctx : RequestCtx) (key value : String) :
    (condSet c ctx key value).nextCalls = ctx.nextCalls := by
  unfold condSet
  split_ifs <;> rfl

theorem annotateCommon_Request (cfg : Config) (ctx : RequestCtx) :
    (annotateCommon cfg ctx).Request = ctx.Request := by
  simp only [annotateCommon, condSet_Request, setResponseHeader_Request]

theorem annotateCommon_nextCalls (cfg : Config) (ctx : RequestCtx) :
    (annotateCommon cfg ctx).nextCalls = ctx.nextCalls := by
  simp only [annotateCommon, condSet_nextCalls, setResponseHeader_nextCalls]

theorem annotatePreflight_nextCalls (cfg : Config) (ctx : RequestCtx) :
    (annotatePreflight cfg ctx).nextCalls = ctx.nextCalls := by
  simp only [annotatePreflight, condSet_nextCalls]

theorem annotatePreflight_Request (cfg : Config) (ctx : RequestCtx) :
    (annotatePreflight cfg ctx).Request = ctx.Request := by
  simp only [annotatePreflight, condSet_Request]

/-- The body of `New`, with its straight-line blocks named. -/
theorem New_unfold {ε : Type} (cfg : Config) (host : RequestCtx → Option ε) (ctx : RequestCtx) :
    New cfg host ctx =
      if ¬ isAllowedOrigin cfg.AllowedOrigins (ctx.Request.Header.Peek HeaderOrigin) then
        ctx.Next host
      else if (annotateCommon cfg ctx).Request.Method ≠ MethodOptions then
        (annotateCommon cfg ctx).Next host
      else (annotatePreflight cfg (annotateCommon cfg ctx)).Next host := rfl

theorem New_eq_Next_annotate {ε : Type} (cfg : Config) (host : RequestCtx → Option ε)
    (ctx : RequestCtx) : New cfg host ctx = (annotate cfg ctx).Next host := by
  rw [New_unfold, annotateCommon_Request]
  unfold annotate
  split_ifs <;> rfl

theorem condSet_Peek_other (c : Prop) [Decidable c] (ctx : RequestCtx)
    (key value other : String) (hne : key ≠ other) :
    (condSet c ctx key value).Response.Header.Peek other = ctx.Response.Header.Peek other := by
  unfold condSet
  split_ifs
  · exact setResponseHeader_Peek_other ctx key value other hne
  · rfl

theorem condSet_Peek_pos (c : Prop) [Decidable c] (ctx : RequestCtx)
    (key value : String) (hc : c) :
    (condSet c ctx key value).Response.Header.Peek key = value := by
  simp [condSet, hc, setResponseHeader_Peek_same]

theorem condSet_Peek_neg (c : Prop) [Decidable c] (ctx : RequestCtx)
    (key value other : String) (hc : ¬ c) :
    (condSet c ctx key value).Response.Header.Peek other = ctx.Response.Header.Peek other := by
  simp [condSet, hc]

theorem condSet_Lookup_other (c : Prop) [Decidable c] (ctx : RequestCtx)
    (key value other : String) (hne : key ≠ other) :
    (condSet c ctx key value).Response.Header.Lookup other
      = ctx.Response.Header.Lookup other := by
  unfold condSet
  split_ifs
  · exact setResponseHeader_Lookup_other ctx key value other hne
  · rfl

theorem condSet_Lookup_neg (c : Prop) [Decidable c] (ctx : RequestCtx)
    (key value other : String) (hc : ¬ c) :
    (condSet c ctx key value).Response.Header.Lookup other
      = ctx.Response.Header.Lookup other := by
  simp [condSet, hc]

/-- Frame of the common block: it writes only `Access-Control-Allow-Origin`,
`Access-Control-Allow-Credentials`, `Vary` and `Access-Control-Expose-Headers`. -/
theorem annotateCommon_Lookup_other (cfg : Config) (ctx : RequestCtx) (key : String)
    (h1 : HeaderAccessControlAllowOrigin ≠ key) (h2 : HeaderAccessControlAllowCredentials ≠ key)
    (h3 : HeaderVary ≠ key) (h4 : HeaderAccessControlExposeHeaders ≠ key) :
    (annotateCommon cfg ctx).Response.Header.Lookup key = ctx.Response.Header.Lookup key := by
  simp only [annotateCommon]
  rw [condSet_Lookup_other _ _ _ _ _ h4, setResponseHeader_Lookup_other _ _ _ _ h3,
    condSet_Lookup_other _ _ _ _ _ h2, setResponseHeader_Lookup_other _ _ _ _ h1]

/-- Frame of the preflight block: it writes only `Access-Control-Allow-Headers`,
`Access-Control-Allow-Methods` and `Access-Control-Max-Age`. -/
theorem annotatePreflight_Lookup_other (cfg : Config) (ctx : RequestCtx) (key : String)
    (h1 : HeaderAccessControlAllowHeaders ≠ key) (h2 : HeaderAccessControlAllowMethods ≠ key)
    (h3 : HeaderAccessControlMaxAge ≠ key) :
    (annotatePreflight cfg ctx).Response.Header.Lookup key
      = ctx.Response.Header.Lookup key := by
  simp only [annotatePreflight]
  rw [condSet_Lookup_other _ _ _ _ _ h3, condSet_Lookup_other _ _ _ _ _ h2,
    condSet_Lookup_other _ _ _ _ _ h1]

theorem isAllowedOrigin_eq_true (S : List String) (o : String) :
    isAllowedOrigin S o = true ↔ o ∈ S ∨ "*" ∈ S := by
  induction S with
  | nil => simp [isAllowedOrigin]
  | cons v rest ih =>
    by_cases h : v = o ∨ v = "*"
    · rcases h with h | h
      · simp [isAllowedOrigin, h]
      · simp [isAllowedOrigin, h]
    · have h1 : ¬ o = v := fun e => h (Or.inl e.symm)
      have h2 : ¬ "*" = v := fun e => h (Or.inr e.symm)
      simp [isAllowedOrigin, h, ih, h1, h2]

theorem String_length_pos_iff (s : String) : 0 < s.length ↔ s ≠ "" := by
  obtain ⟨l⟩ := s
  cases l with
  | nil => simp [String.length]
  | cons c cs =>
    simp only [String.length, List.length_cons, Nat.succ_pos, true_iff]
    intro h
    exact List.cons_ne_nil c cs (congrArg String.data h)

theorem List_length_pos_iff {α : Type} (l : List α) : 0 < l.length ↔ l ≠ [] := by
  cases l <;> simp

theorem Header.Peek_absent (h : Header) (key : String) (habs : ∀ e ∈ h, e.1 ≠ key) :
    h.Peek key = "" := by
  induction h with
  | nil => rfl
  | cons e rest ih =>
    obtain ⟨k, v⟩ := e
    have hk : k ≠ key := habs (k, v) (List.mem_cons_self _ _)
    simp only [Header.Peek, hk, if_false]
    exact ih (fun e he => habs e (List.mem_cons_of_mem _ he))

theorem joinRest_eq_go (sep acc : String) (l : List String) :
    joinRest sep acc l = String.intercalate.go acc sep l := by
  induction l generalizing acc with
  | nil => rfl
  | cons a rest ih => simp only [joinRest, String.intercalate.go, ih]

theorem stringsJoin_eq_intercalate (l : List String) (sep : String) :
    stringsJoin l sep = sep.intercalate l := by
  match l with
  | [] => rfl
  | [a] => rfl
  | a :: b :: rest => simp only [stringsJoin, String.intercalate, joinRest_eq_go]

/-- The value of a response header on the context handed to `Next`, for an allowed origin
and a method other than `OPTIONS`. -/
theorem annotate_allowed_other (cfg : Config) (ctx : RequestCtx)
    (ha : isAllowedOrigin cfg.AllowedOrigins (ctx.Request.Header.Peek HeaderOrigin) = true)
    (hm : ctx.Request.Method ≠ MethodOptions) :
    annotate cfg ctx = annotateCommon cfg ctx := by
  simp [annotate, ha, hm]

theorem annotate_allowed_options (cfg : Config) (ctx : RequestCtx)
    (ha : isAllowedOrigin cfg.AllowedOrigins (ctx.Request.Header.Peek HeaderOrigin) = true)
    (hm : ctx.Request.Method = MethodOptions) :
    annotate cfg ctx = annotatePreflight cfg (annotateCommon cfg ctx) := by
  simp [annotate, ha, hm]

theorem annotate_denied (cfg : Config) (ctx : RequestCtx)
    (ha : ¬ isAllowedOrigin cfg.AllowedOrigins (ctx.Request.Header.Peek HeaderOrigin) = true) :
    annotate cfg ctx = ctx := by
  simp [annotate, ha]

/-- Two header collections with the same first entry for a name (or both without one) read
the same value for it. -/
theorem unchanged_of_Lookup_eq (h1 h2 : Header) (key : String)
    (h : h1.Lookup key = h2.Lookup key) :
    h1.Lookup key = h2.Lookup key ∧ h1.Peek key = h2.Peek key :=
  ⟨h, by rw [Header.Peek_eq_Lookup, Header.Peek_eq_Lookup, h]⟩

/-- Frame of the middleware for a method other than `OPTIONS`: only the four headers of
the common block can change. -/
theorem annotate_Lookup_non_options (cfg : Config) (ctx : RequestCtx) (key : String)
    (hm : ctx.Request.Method ≠ MethodOptions)
    (h1 : HeaderAccessControlAllowOrigin ≠ key) (h2 : HeaderAccessControlAllowCredentials ≠ key)
    (h3 : HeaderVary ≠ key) (h4 : HeaderAccessControlExposeHeaders ≠ key) :
    (annotate cfg ctx).Response.Header.Lookup key = ctx.Response.Header.Lookup key := by
  by_cases ha : isAllowedOrigin cfg.AllowedOrigins (ctx.Request.Header.Peek HeaderOrigin) = true
  · rw [annotate_allowed_other cfg ctx ha hm]
    exact annotateCommon_Lookup_other cfg ctx key h1 h2 h3 h4
  · rw [annotate_denied cfg ctx ha]

/-! ## Claims -/

/-- C1: for every list of allowed origins `S` and every string `o`, `isAllowedOrigin S o`
is true if and only if `o` is an element of `S` or the literal `"*"` is an element of `S`
(exact string equality), and it is false for every `o` when `S` is empty. -/
theorem isAllowedOrigin_iff_mem_or_wildcard (S : List String) (o : String) :
    (isAllowedOrigin S o = true ↔ o ∈ S ∨ "*" ∈ S) ∧ isAllowedOrigin [] o = false :=
  ⟨isAllowedOrigin_eq_true S o, rfl⟩

/-- C2: deny path is a no-op.  For every policy, host, and context whose request `Origin`
is not in `AllowedOrigins` while `"*"` is not in `AllowedOrigins` either, the response
(its whole header collection) after the middleware has run equals the one before. -/
theorem New_deny_response_unchanged {ε : Type} (cfg : Config) (host : RequestCtx → Option ε)
    (ctx : RequestCtx)
    (ho : ctx.Request.Header.Peek HeaderOrigin ∉ cfg.AllowedOrigins)
    (hw : "*" ∉ cfg.AllowedOrigins) :
    (New cfg host ctx).1.Response.Header = ctx.Response.Header := by
  have hna : ¬ isAllowedOrigin cfg.AllowedOrigins (ctx.Request.Header.Peek HeaderOrigin) = true := by
    rw [isAllowedOrigin_eq_true]
    exact fun h => h.elim ho hw
  simp [New, hna, RequestCtx.Next]

theorem New_deny_response_unchanged_witness :
    (mkCtx "POST" "https://cors.test" "Accept-Encoding").Request.Header.Peek HeaderOrigin
        ∉ cfgC.AllowedOrigins ∧
      "*" ∉ cfgC.AllowedOrigins ∧
      (New cfgC hostOk (mkCtx "POST" "https://cors.test" "Accept-Encoding")).1.Response.Header
        = [("Vary", "Accept-Encoding")] :=
  ⟨by decide, by decide,
    New_deny_response_unchanged cfgC hostOk (mkCtx "POST" "https://cors.test" "Accept-Encoding")
      (by decide) (by decide)⟩

/-- C3: origin reflection.  For every policy and every context whose request `Origin` `o`
is allowed (it is listed, or `"*"` is listed), after the middleware has run the response
header `Access-Control-Allow-Origin` equals `o`, the literal request origin. -/
theorem New_allow_origin_reflected {ε : Type} (cfg : Config) (host : RequestCtx → Option ε)
    (ctx : RequestCtx)
    (hallow : ctx.Request.Header.Peek HeaderOrigin ∈ cfg.AllowedOrigins
      ∨ "*" ∈ cfg.AllowedOrigins) :
    (New cfg host ctx).1.Response.Header.Peek HeaderAccessControlAllowOrigin
      = ctx.Request.Header.Peek HeaderOrigin := by
  have ha := (isAllowedOrigin_eq_true _ _).2 hallow
  rw [New_eq_Next_annotate, Next_fst_Response]
  simp only [annotate, ha, not_true_eq_false, if_false]
  split_ifs <;>
    simp [annotateCommon, annotatePreflight, condSet_Peek_other, setResponseHeader_Peek_same,
      setResponseHeader_Peek_other,
      HeaderVary, HeaderAccessControlAllowOrigin, HeaderAccessControlAllowCredentials,
      HeaderAccessControlExposeHeaders, HeaderAccessControlAllowHeaders,
      HeaderAccessControlAllowMethods, HeaderAccessControlMaxAge]

theorem New_allow_origin_reflected_witness :
    ((mkCtx "POST" "https://cors.test" "").Request.Header.Peek HeaderOrigin ∈ cfgB.AllowedOrigins
        ∨ "*" ∈ cfgB.AllowedOrigins) ∧
      cfgB.AllowedOrigins = ["*"] ∧
      (New cfgB hostOk (mkCtx "POST" "https://cors.test" "")).1.Response.Header.Peek
        HeaderAccessControlAllowOrigin = "https://cors.test" ∧
      (New cfgB hostOk (mkCtx "POST" "https://cors.test" "")).1.Response.Header.Peek
        HeaderAccessControlAllowOrigin ≠ "*" :=
  ⟨by decide, rfl,
    New_allow_origin_reflected cfgB hostOk (mkCtx "POST" "https://cors.test" "") (by decide),
    by decide⟩

/-- C4: `Vary` is appended to, never overwritten.  For every allowed request, with `v` the
value of the response header `Vary` before the middleware runs: afterwards `Vary` is
`v ++ ", Origin"` when `v` is non-empty, and exactly `"Origin"` when `v` is empty or when
the response has no `Vary` entry at all. -/
theorem New_vary_appended {ε : Type} (cfg : Config) (host : RequestCtx → Option ε)
    (ctx : RequestCtx)
    (hallow : ctx.Request.Header.Peek HeaderOrigin ∈ cfg.AllowedOrigins
      ∨ "*" ∈ cfg.AllowedOrigins) :
    (ctx.Response.Header.Peek "Vary" ≠ "" →
        (New cfg host ctx).1.Response.Header.Peek "Vary"
          = ctx.Response.Header.Peek "Vary" ++ ", Origin") ∧
      (ctx.Response.Header.Peek "Vary" = "" →
        (New cfg host ctx).1.Response.Header.Peek "Vary" = "Origin") ∧
      ((∀ e ∈ ctx.Response.Header, e.1 ≠ "Vary") →
        (New cfg host ctx).1.Response.Header.Peek "Vary" = "Origin") := by
  have ha := (isAllowedOrigin_eq_true _ _).2 hallow
  have key : (New cfg host ctx).1.Response.Header.Peek "Vary"
      = varyValue (ctx.Response.Header.Peek "Vary") := by
    rw [New_eq_Next_annotate, Next_fst_Response]
    simp only [annotate, ha, not_true_eq_false, if_false]
    split_ifs <;>
      simp [annotateCommon, annotatePreflight, condSet_Peek_other, setResponseHeader_Peek_same,
        setResponseHeader_Peek_other,
        HeaderVary, HeaderAccessControlAllowOrigin, HeaderAccessControlAllowCredentials,
        HeaderAccessControlExposeHeaders, HeaderAccessControlAllowHeaders,
        HeaderAccessControlAllowMethods, HeaderAccessControlMaxAge]
  have hempty : ctx.Response.Header.Peek "Vary" = "" →
      (New cfg host ctx).1.Response.Header.Peek "Vary" = "Origin" := by
    intro hv
    rw [key, hv]
    rfl
  refine ⟨?_, hempty, fun habs => hempty (Header.Peek_absent _ _ habs)⟩
  intro hv
  have hpos := (String_length_pos_iff _).2 hv
  rw [key]
  simp only [varyValue, hpos, if_true, strHeaderDelim, HeaderOrigin, String.append_assoc]
  rfl

theorem New_vary_appended_witness :
    (New cfgA hostOk (mkCtx "OPTIONS" "https://cors.test" "Accept-Encoding")).1.Response.Header.Peek
        "Vary" = "Accept-Encoding, Origin" ∧
      (New cfgB hostOk (mkCtx "POST" "https://cors.test" "")).1.Response.Header.Peek "Vary"
        = "Origin" :=
  ⟨(New_vary_appended cfgA hostOk (mkCtx "OPTIONS" "https://cors.test" "Accept-Encoding")
      (by decide)).1 (by decide),
    (New_vary_appended cfgB hostOk (mkCtx "POST" "https://cors.test" "") (by decide)).2.1
      (by decide)⟩

/-- C5: preflight-only headers.  For every policy, every origin (in particular every
allowed one) and every request method that is not exactly `"OPTIONS"`, each of the response
headers `Access-Control-Allow-Headers`, `Access-Control-Allow-Methods` and
`Access-Control-Max-Age` is after the middleware runs as it was before: the same entry
(unset stays unset) and hence the same value. -/
theorem New_non_options_preflight_headers_unchanged {ε : Type} (cfg : Config)
    (host : RequestCtx → Option ε) (ctx : RequestCtx)
    (hm : ctx.Request.Method ≠ "OPTIONS") :
    ((New cfg host ctx).1.Response.Header.Lookup "Access-Control-Allow-Headers"
          = ctx.Response.Header.Lookup "Access-Control-Allow-Headers" ∧
        (New cfg host ctx).1.Response.Header.Peek "Access-Control-Allow-Headers"
          = ctx.Response.Header.Peek "Access-Control-Allow-Headers") ∧
      ((New cfg host ctx).1.Response.Header.Lookup "Access-Control-Allow-Methods"
          = ctx.Response.Header.Lookup "Access-Control-Allow-Methods" ∧
        (New cfg host ctx).1.Response.Header.Peek "Access-Control-Allow-Methods"
          = ctx.Response.Header.Peek "Access-Control-Allow-Methods") ∧
      ((New cfg host ctx).1.Response.Header.Lookup "Access-Control-Max-Age"
          = ctx.Response.Header.Lookup "Access-Control-Max-Age" ∧
        (New cfg host ctx).1.Response.Header.Peek "Access-Control-Max-Age"
          = ctx.Response.Header.Peek "Access-Control-Max-Age") := by
  rw [New_eq_Next_annotate, Next_fst_Response]
  refine ⟨unchanged_of_Lookup_eq _ _ _ ?_, unchanged_of_Lookup_eq _ _ _ ?_,
    unchanged_of_Lookup_eq _ _ _ ?_⟩ <;>
    exact annotate_Lookup_non_options cfg ctx _ hm (by decide) (by decide) (by decide)
      (by decide)

theorem New_non_options_preflight_headers_unchanged_witness :
    isAllowedOrigin cfgB.AllowedOrigins "https://cors.test" = true ∧
      (New cfgB hostOk (mkCtx "options" "https://cors.test" "")).1.Response.Header.Lookup
          "Access-Control-Allow-Headers" = none ∧
      (New cfgB hostOk (mkCtx "options" "https://cors.test" "")).1.Response.Header.Lookup
          "Access-Control-Allow-Methods" = none ∧
      (New cfgB hostOk (mkCtx "options" "https://cors.test" "")).1.Response.Header.Lookup
          "Access-Control-Max-Age" = none :=
  ⟨by decide,
    (New_non_options_preflight_headers_unchanged cfgB hostOk
      (mkCtx "options" "https://cors.test" "") (by decide)).1.1,
    (New_non_options_preflight_headers_unchanged cfgB hostOk
      (mkCtx "options" "https://cors.test" "") (by decide)).2.1.1,
    (New_non_options_preflight_headers_unchanged cfgB hostOk
      (mkCtx "options" "https://cors.test" "") (by decide)).2.2.1⟩

/-- C6: preflight advertisement.  For every policy and every request with method
`"OPTIONS"` and an allowed origin, after the middleware runs `Access-Control-Allow-Headers`
is the elements of `AllowedHeaders` in order joined by `", "` when `AllowedHeaders` is
non-empty and is left as it was (same entry, same value) when it is empty, and likewise
`Access-Control-Allow-Methods` for `AllowedMethods`. -/
theorem New_options_advertises {ε : Type} (cfg : Config) (host : RequestCtx → Option ε)
    (ctx : RequestCtx)
    (hallow : ctx.Request.Header.Peek HeaderOrigin ∈ cfg.AllowedOrigins
      ∨ "*" ∈ cfg.AllowedOrigins)
    (hm : ctx.Request.Method = "OPTIONS") :
    (cfg.AllowedHeaders ≠ [] →
        (New cfg host ctx).1.Response.Header.Peek "Access-Control-Allow-Headers"
          = ", ".intercalate cfg.AllowedHeaders) ∧
      (cfg.AllowedHeaders = [] →
        (New cfg host ctx).1.Response.Header.Lookup "Access-Control-Allow-Headers"
            = ctx.Response.Header.Lookup "Access-Control-Allow-Headers" ∧
          (New cfg host ctx).1.Response.Header.Peek "Access-Control-Allow-Headers"
            = ctx.Response.Header.Peek "Access-Control-Allow-Headers") ∧
      (cfg.AllowedMethods ≠ [] →
        (New cfg host ctx).1.Response.Header.Peek "Access-Control-Allow-Methods"
          = ", ".intercalate cfg.AllowedMethods) ∧
      (cfg.AllowedMethods = [] →
        (New cfg host ctx).1.Response.Header.Lookup "Access-Control-Allow-Methods"
            = ctx.Response.Header.Lookup "Access-Control-Allow-Methods" ∧
          (New cfg host ctx).1.Response.Header.Peek "Access-Control-Allow-Methods"
            = ctx.Response.Header.Peek "Access-Control-Allow-Methods") := by
  have ha := (isAllowedOrigin_eq_true _ _).2 hallow
  rw [New_eq_Next_annotate, Next_fst_Response, annotate_allowed_options cfg ctx ha hm]
  refine ⟨fun h => ?_, fun h => unchanged_of_Lookup_eq _ _ _ ?_, fun h => ?_,
    fun h => unchanged_of_Lookup_eq _ _ _ ?_⟩
  · have hp := (List_length_pos_iff _).2 h
    simp [annotatePreflight, condSet_Peek_other, condSet_Peek_pos, hp,
      stringsJoin_eq_intercalate, strHeaderDelim,
      HeaderAccessControlAllowHeaders, HeaderAccessControlAllowMethods,
      HeaderAccessControlMaxAge]
  · simp [annotatePreflight, annotateCommon, condSet_Lookup_other, condSet_Lookup_neg, h,
      setResponseHeader_Lookup_other,
      HeaderVary, HeaderAccessControlAllowOrigin, HeaderAccessControlAllowCredentials,
      HeaderAccessControlExposeHeaders, HeaderAccessControlAllowHeaders,
      HeaderAccessControlAllowMethods, HeaderAccessControlMaxAge]
  · have hp := (List_length_pos_iff _).2 h
    simp [annotatePreflight, condSet_Peek_other, condSet_Peek_pos, hp,
      stringsJoin_eq_intercalate, strHeaderDelim,
      HeaderAccessControlAllowHeaders, HeaderAccessControlAllowMethods,
      HeaderAccessControlMaxAge]
  · simp [annotatePreflight, annotateCommon, condSet_Lookup_other, condSet_Lookup_neg, h,
      setResponseHeader_Lookup_other,
      HeaderVary, HeaderAccessControlAllowOrigin, HeaderAccessControlAllowCredentials,
      HeaderAccessControlExposeHeaders, HeaderAccessControlAllowHeaders,
      HeaderAccessControlAllowMethods, HeaderAccessControlMaxAge]

theorem New_options_advertises_witness :
    (New cfgA hostOk (mkCtx "OPTIONS" "https://cors.test" "Accept-Encoding")).1.Response.Header.Peek
        "Access-Control-Allow-Headers" = "Content-Type, X-Custom" ∧
      (New cfgA hostOk (mkCtx "OPTIONS" "https://cors.test" "Accept-Encoding")).1.Response.Header.Peek
        "Access-Control-Allow-Methods" = "GET, POST, DELETE" ∧
      (New { cfgA with AllowedHeaders := [] } hostOk
        (mkCtx "OPTIONS" "https://cors.test" "")).1.Response.Header.Lookup
          "Access-Control-Allow-Headers" = none :=
  ⟨(New_options_advertises cfgA hostOk (mkCtx "OPTIONS" "https://cors.test" "Accept-Encoding")
      (by decide) (by decide)).1 (by decide),
    (New_options_advertises cfgA hostOk (mkCtx "OPTIONS" "https://cors.test" "Accept-Encoding")
      (by decide) (by decide)).2.2.1 (by decide),
    ((New_options_advertises { cfgA with AllowedHeaders := [] } hostOk
      (mkCtx "OPTIONS" "https://cors.test" "") (by decide) (by decide)).2.1 (by decide)).1⟩

/-- C7: max-age suppression.  For every policy with `AllowMaxAge <= 0`, every request
method (also `"OPTIONS"`), every origin and every initial response headers, the middleware
does not write `Access-Control-Max-Age`: after the run the header is as before, the same
entry (unset stays unset) and the same value. -/
theorem New_max_age_suppressed {ε : Type} (cfg : Config) (host : RequestCtx → Option ε)
    (ctx : RequestCtx) (hage : cfg.AllowMaxAge ≤ 0) :
    (New cfg host ctx).1.Response.Header.Lookup "Access-Control-Max-Age"
        = ctx.Response.Header.Lookup "Access-Control-Max-Age" ∧
      (New cfg host ctx).1.Response.Header.Peek "Access-Control-Max-Age"
        = ctx.Response.Header.Peek "Access-Control-Max-Age" := by
  have hn : ¬ 0 < cfg.AllowMaxAge := not_lt.mpr hage
  rw [New_eq_Next_annotate, Next_fst_Response]
  refine unchanged_of_Lookup_eq _ _ _ ?_
  unfold annotate
  split_ifs <;>
    simp [annotatePreflight, annotateCommon, condSet_Lookup_other, condSet_Lookup_neg, hn,
      setResponseHeader_Lookup_other,
      HeaderVary, HeaderAccessControlAllowOrigin, HeaderAccessControlAllowCredentials,
      HeaderAccessControlExposeHeaders, HeaderAccessControlAllowHeaders,
      HeaderAccessControlAllowMethods, HeaderAccessControlMaxAge]

theorem New_max_age_suppressed_witness :
    isAllowedOrigin cfgA.AllowedOrigins "https://cors.test" = true ∧
      (New { cfgA with AllowMaxAge := -1 } hostOk
        (mkCtx "OPTIONS" "https://cors.test" "")).1.Response.Header.Lookup
          "Access-Control-Max-Age" = none ∧
      (New { cfgA with AllowMaxAge := 0 } hostOk
        (mkCtx "OPTIONS" "https://cors.test" "")).1.Response.Header.Lookup
          "Access-Control-Max-Age" = none :=
  ⟨by decide,
    (New_max_age_suppressed { cfgA with AllowMaxAge := -1 } hostOk
      (mkCtx "OPTIONS" "https://cors.test" "") (by decide)).1,
    (New_max_age_suppressed { cfgA with AllowMaxAge := 0 } hostOk
      (mkCtx "OPTIONS" "https://cors.test" "") (by decide)).1⟩

/-- C8: credentials header.  For every allowed request of any method, if
`AllowCredentials` is true then after the middleware runs
`Access-Control-Allow-Credentials` equals the literal string `"true"`, and if it is false
the header is exactly as it was before (same entry, same value). -/
theorem New_credentials {ε : Type} (cfg : Config) (host : RequestCtx → Option ε)
    (ctx : RequestCtx)
    (hallow : ctx.Request.Header.Peek HeaderOrigin ∈ cfg.AllowedOrigins
      ∨ "*" ∈ cfg.AllowedOrigins) :
    (cfg.AllowCredentials = true →
        (New cfg host ctx).1.Response.Header.Peek "Access-Control-Allow-Credentials" = "true") ∧
      (cfg.AllowCredentials = false →
        (New cfg host ctx).1.Response.Header.Lookup "Access-Control-Allow-Credentials"
            = ctx.Response.Header.Lookup "Access-Control-Allow-Credentials" ∧
          (New cfg host ctx).1.Response.Header.Peek "Access-Control-Allow-Credentials"
            = ctx.Response.Header.Peek "Access-Control-Allow-Credentials") := by
  have ha := (isAllowedOrigin_eq_true _ _).2 hallow
  rw [New_eq_Next_annotate, Next_fst_Response]
  simp only [annotate, ha, not_true_eq_false, if_false]
  refine ⟨fun h => ?_, fun h => unchanged_of_Lookup_eq _ _ _ ?_⟩
  · split_ifs <;>
      simp [annotatePreflight, annotateCommon, condSet_Peek_other, condSet_Peek_pos, h,
        setResponseHeader_Peek_other,
        HeaderVary, HeaderAccessControlAllowOrigin, HeaderAccessControlAllowCredentials,
      HeaderAccessControlExposeHeaders, HeaderAccessControlAllowHeaders,
      HeaderAccessControlAllowMethods, HeaderAccessControlMaxAge]
  · split_ifs <;>
      simp [annotatePreflight, annotateCommon, condSet_Lookup_other, condSet_Lookup_neg, h,
        setResponseHeader_Lookup_other,
        HeaderVary, HeaderAccessControlAllowOrigin, HeaderAccessControlAllowCredentials,
      HeaderAccessControlExposeHeaders, HeaderAccessControlAllowHeaders,
      HeaderAccessControlAllowMethods, HeaderAccessControlMaxAge]

theorem New_credentials_witness :
    (New cfgB hostOk (mkCtx "POST" "https://cors.test" "")).1.Response.Header.Peek
        "Access-Control-Allow-Credentials" = "true" ∧
      (New { cfgB with AllowCredentials := false } hostOk
        (mkCtx "POST" "https://cors.test" "")).1.Response.Header.Lookup
          "Access-Control-Allow-Credentials" = none :=
  ⟨(New_credentials cfgB hostOk (mkCtx "POST" "https://cors.test" "") (by decide)).1
      (by decide),
    ((New_credentials { cfgB with AllowCredentials := false } hostOk
      (mkCtx "POST" "https://cors.test" "") (by decide)).2 (by decide)).1⟩

/-- C9: expose-headers.  For every allowed request of any method, if `ExposedHeaders` is
non-empty then after the middleware runs `Access-Control-Expose-Headers` equals the
elements of `ExposedHeaders` in order joined by `", "`, and if `ExposedHeaders` is empty
the header is exactly as it was before (same entry, same value). -/
theorem New_expose_headers {ε : Type} (cfg : Config) (host : RequestCtx → Option ε)
    (ctx : RequestCtx)
    (hallow : ctx.Request.Header.Peek HeaderOrigin ∈ cfg.AllowedOrigins
      ∨ "*" ∈ cfg.AllowedOrigins) :
    (cfg.ExposedHeaders ≠ [] →
        (New cfg host ctx).1.Response.Header.Peek "Access-Control-Expose-Headers"
          = ", ".intercalate cfg.ExposedHeaders) ∧
      (cfg.ExposedHeaders = [] →
        (New cfg host ctx).1.Response.Header.Lookup "Access-Control-Expose-Headers"
            = ctx.Response.Header.Lookup "Access-Control-Expose-Headers" ∧
          (New cfg host ctx).1.Response.Header.Peek "Access-Control-Expose-Headers"
            = ctx.Response.Header.Peek "Access-Control-Expose-Headers") := by
  have ha := (isAllowedOrigin_eq_true _ _).2 hallow
  rw [New_eq_Next_annotate, Next_fst_Response]
  simp only [annotate, ha, not_true_eq_false, if_false]
  refine ⟨fun h => ?_, fun h => unchanged_of_Lookup_eq _ _ _ ?_⟩
  · have hp := (List_length_pos_iff _).2 h
    split_ifs <;>
      simp [annotatePreflight, annotateCommon, condSet_Peek_other, condSet_Peek_pos, hp,
        stringsJoin_eq_intercalate, strHeaderDelim,
        HeaderAccessControlExposeHeaders, HeaderAccessControlAllowHeaders,
        HeaderAccessControlAllowMethods, HeaderAccessControlMaxAge]
  · split_ifs <;>
      simp [annotatePreflight, annotateCommon, condSet_Lookup_other, condSet_Lookup_neg, h,
        setResponseHeader_Lookup_other,
        HeaderVary, HeaderAccessControlAllowOrigin, HeaderAccessControlAllowCredentials,
      HeaderAccessControlExposeHeaders, HeaderAccessControlAllowHeaders,
      HeaderAccessControlAllowMethods, HeaderAccessControlMaxAge]

theorem New_expose_headers_witness :
    (New cfgB hostOk (mkCtx "POST" "https://cors.test" "")).1.Response.Header.Peek
        "Access-Control-Expose-Headers" = "Content-Length, Authorization" ∧
      (New { cfgA with ExposedHeaders := [] } hostOk
        (mkCtx "OPTIONS" "https://cors.test" "")).1.Response.Header.Lookup
          "Access-Control-Expose-Headers" = none :=
  ⟨(New_expose_headers cfgB hostOk (mkCtx "POST" "https://cors.test" "") (by decide)).1
      (by decide),
    ((New_expose_headers { cfgA with ExposedHeaders := [] } hostOk
      (mkCtx "OPTIONS" "https://cors.test" "") (by decide)).2 (by decide)).1⟩

/-- C10: chain continuation and error propagation.  For every policy, host and context
(allowed or not, preflight or not): the continue primitive is invoked exactly once (the
counter of `Next` calls grows by one); the outcome of the middleware, state and returned
value, is the outcome of that single call of `Next`, made on the final context; hence
whatever value `r` (an error, or `nil`) the host returns from `Next`, the middleware
returns that same `r`. -/
theorem New_calls_Next_once_and_returns_its_value {ε : Type} (cfg : Config)
    (host : RequestCtx → Option ε) (ctx : RequestCtx) (r : Option ε) :
    (New cfg host ctx).1.nextCalls = ctx.nextCalls + 1 ∧
      New cfg host ctx
        = RequestCtx.Next host { (New cfg host ctx).1 with nextCalls := ctx.nextCalls } ∧
      (New cfg host ctx).2
        = host { (New cfg host ctx).1 with nextCalls := ctx.nextCalls } ∧
      (New cfg (fun _ => r) ctx).2 = r := by
  have hcalls : (annotate cfg ctx).nextCalls = ctx.nextCalls := by
    unfold annotate
    split_ifs <;>
      simp only [annotatePreflight_nextCalls, annotateCommon_nextCalls]
  have hback : { (New cfg host ctx).1 with nextCalls := ctx.nextCalls } = annotate cfg ctx := by
    rw [New_eq_Next_annotate]
    simp only [RequestCtx.Next]
    rw [← hcalls]
  refine ⟨?_, ?_, ?_, ?_⟩
  · rw [New_eq_Next_annotate]
    simp only [RequestCtx.Next, hcalls]
  · rw [hback, New_eq_Next_annotate]
  · rw [hback, New_eq_Next_annotate]
    rfl
  · rw [New_eq_Next_annotate]
    rfl

/-! ## Frame, observation and dependence lemmas -/

theorem setResponseHeader_Header (ctx : RequestCtx) (key value : String) :
    (ctx.setResponseHeader key value).Response.Header = ctx.Response.Header.Set key value :=
  rfl

theorem setResponseHeader_Body (ctx : RequestCtx) (key value : String) :
    (ctx.setResponseHeader key value).Response.Body = ctx.Response.Body := rfl

theorem condSet_Header (c : Prop) [Decidable c] (ctx : RequestCtx) (key value : String) :
    (condSet c ctx key value).Response.Header
      = if c then ctx.Response.Header.Set key value else ctx.Response.Header := by
  unfold condSet
  split_ifs <;> rfl

theorem condSet_Body (c : Prop) [Decidable c] (ctx : RequestCtx) (key value : String) :
    (condSet c ctx key value).Response.Body = ctx.Response.Body := by
  unfold condSet
  split_ifs <;> rfl

theorem annotate_Request (cfg : Config) (ctx : RequestCtx) :
    (annotate cfg ctx).Request = ctx.Request := by
  unfold annotate
  split_ifs <;> simp only [annotatePreflight_Request, annotateCommon_Request]

theorem annotate_Body (cfg : Config) (ctx : RequestCtx) :
    (annotate cfg ctx).Response.Body = ctx.Response.Body := by
  unfold annotate
  split_ifs <;>
    simp only [annotatePreflight, annotateCommon, condSet_Body, setResponseHeader_Body]

/-- Frame of the whole middleware: a header outside the seven written names keeps its
entry. -/
theorem annotate_Lookup_other (cfg : Config) (ctx : RequestCtx) (key : String)
    (h1 : HeaderAccessControlAllowOrigin ≠ key) (h2 : HeaderAccessControlAllowCredentials ≠ key)
    (h3 : HeaderVary ≠ key) (h4 : HeaderAccessControlExposeHeaders ≠ key)
    (h5 : HeaderAccessControlAllowHeaders ≠ key) (h6 : HeaderAccessControlAllowMethods ≠ key)
    (h7 : HeaderAccessControlMaxAge ≠ key) :
    (annotate cfg ctx).Response.Header.Lookup key = ctx.Response.Header.Lookup key := by
  unfold annotate
  split_ifs
  · exact annotateCommon_Lookup_other cfg ctx key h1 h2 h3 h4
  · rw [annotatePreflight_Lookup_other cfg _ key h5 h6 h7]
    exact annotateCommon_Lookup_other cfg ctx key h1 h2 h3 h4
  · rfl

/-- The response headers on which `Next` is called are a function of the policy, the
request origin, the method and the prior response headers. -/
theorem annotate_Header_congr (cfg : Config) (ctx1 ctx2 : RequestCtx)
    (ho : ctx1.Request.Header.Peek HeaderOrigin = ctx2.Request.Header.Peek HeaderOrigin)
    (hm : ctx1.Request.Method = ctx2.Request.Method)
    (hr : ctx1.Response.Header = ctx2.Response.Header) :
    (annotate cfg ctx1).Response.Header = (annotate cfg ctx2).Response.Header := by
  have hc : (annotateCommon cfg ctx1).Response.Header
      = (annotateCommon cfg ctx2).Response.Header := by
    simp only [annotateCommon, condSet_Header, setResponseHeader_Header, ho, hr]
  have hp : (annotatePreflight cfg (annotateCommon cfg ctx1)).Response.Header
      = (annotatePreflight cfg (annotateCommon cfg ctx2)).Response.Header := by
    simp only [annotatePreflight, condSet_Header, hc]
  unfold annotate
  rw [ho, hm]
  split_ifs
  · exact hc
  · exact hp
  · exact hr

/-! ## Decimal text of a natural number -/

theorem digitChar_isDigit (k : Nat) (hk : k < 10) : (Nat.digitChar k).isDigit = true := by
  interval_cases k <;> rfl

theorem digitChar_value (k : Nat) (hk : k < 10) :
    (Nat.digitChar k).toNat - '0'.toNat = k := by
  interval_cases k <;> rfl

theorem digitChar_ne_zero (k : Nat) (hk : k < 10) (hpos : 0 < k) : Nat.digitChar k ≠ '0' := by
  interval_cases k <;> decide

theorem toDigitsCore_eq (n : Nat) : ∀ fuel ds, n < fuel →
    Nat.toDigitsCore 10 fuel n ds = Nat.toDigits 10 n ++ ds := by
  induction n using Nat.strong_induction_on with
  | _ n ih =>
    intro fuel ds hf
    obtain ⟨f, rfl⟩ : ∃ f, fuel = f + 1 := ⟨fuel - 1, by omega⟩
    unfold Nat.toDigits
    by_cases h0 : n / 10 = 0
    · simp [Nat.toDigitsCore, h0]
    · have hlt : n / 10 < n := by omega
      simp only [Nat.toDigitsCore, h0, if_false]
      rw [ih (n / 10) hlt f _ (by omega), ih (n / 10) hlt n _ hlt]
      simp

theorem toDigits_small (n : Nat) (h : n < 10) : Nat.toDigits 10 n = [Nat.digitChar n] := by
  have h0 : n / 10 = 0 := by omega
  have hm : n % 10 = n := by omega
  simp [Nat.toDigits, Nat.toDigitsCore, h0, hm]

theorem toDigits_step (n : Nat) (h : 10 ≤ n) :
    Nat.toDigits 10 n = Nat.toDigits 10 (n / 10) ++ [Nat.digitChar (n % 10)] := by
  have h0 : n / 10 ≠ 0 := by omega
  have hlt : n / 10 < n := by omega
  conv_lhs => unfold Nat.toDigits
  simp only [Nat.toDigitsCore, h0, if_false]
  exact toDigitsCore_eq (n / 10) n _ hlt

theorem decimalValue_append_single (l : List Char) (c : Char) :
    decimalValue (l ++ [c]) = 10 * decimalValue l + (c.toNat - '0'.toNat) := by
  simp [decimalValue, List.foldl_append]

theorem toDigits_canonical (n : Nat) :
    Nat.toDigits 10 n ≠ [] ∧ (∀ c ∈ Nat.toDigits 10 n, c.isDigit = true) ∧
      (0 < n → (Nat.toDigits 10 n).head? ≠ some '0') ∧
      decimalValue (Nat.toDigits 10 n) = n := by
  induction n using Nat.strong_induction_on with
  | _ n ih =>
    by_cases hs : n < 10
    · rw [toDigits_small n hs]
      refine ⟨by simp, ?_, ?_, ?_⟩
      · intro c hc
        rw [List.mem_singleton] at hc
        rw [hc]
        exact digitChar_isDigit n hs
      · intro hpos
        simpa using digitChar_ne_zero n hs hpos
      · have hv := digitChar_value n hs
        simpa [decimalValue] using hv
    · have hge : 10 ≤ n := by omega
      have hlt : n / 10 < n := by omega
      obtain ⟨hne, hdig, hhead, hval⟩ := ih (n / 10) hlt
      rw [toDigits_step n hge]
      refine ⟨by simp, ?_, ?_, ?_⟩
      · intro c hc
        rw [List.mem_append, List.mem_singleton] at hc
        rcases hc with hc | hc
        · exact hdig c hc
        · rw [hc]
          exact digitChar_isDigit _ (Nat.mod_lt _ (by omega))
      · intro _
        have := hhead (by omega)
        cases hl : Nat.toDigits 10 (n / 10) with
        | nil => exact absurd hl hne
        | cons a t =>
          rw [hl] at this
          simpa using this
      · rw [decimalValue_append_single, hval, digitChar_value _ (Nat.mod_lt _ (by omega))]
        omega

theorem Itoa_of_pos (i : Int) (hi : 0 < i) : Itoa i = Nat.repr i.toNat := by
  cases i with
  | ofNat n => rfl
  | negSucc n => exact absurd hi (by simp [Int.negSucc_lt_zero])

theorem Nat_repr_data (n : Nat) : (Nat.repr n).data = Nat.toDigits 10 n := rfl

/-! ## What the middleware leaves in each header it writes -/

theorem Header.Lookup_Set_same (h : Header) (key value : String) :
    (h.Set key value).Lookup key = some value := by
  induction h with
  | nil => simp [Header.Set, Header.Lookup]
  | cons e rest ih =>
    obtain ⟨k, v⟩ := e
    by_cases hk : k = key
    · simp [Header.Set, Header.Lookup, hk]
    · simp [Header.Set, Header.Lookup, hk, ih]

theorem setResponseHeader_Lookup_same (ctx : RequestCtx) (key value : String) :
    (ctx.setResponseHeader key value).Response.Header.Lookup key = some value := by
  simp [RequestCtx.setResponseHeader, Header.Lookup_Set_same]

theorem condSet_Lookup_pos (c : Prop) [Decidable c] (ctx : RequestCtx)
    (key value : String) (hc : c) :
    (condSet c ctx key value).Response.Header.Lookup key = some value := by
  simp [condSet, hc, setResponseHeader_Lookup_same]

theorem annotate_Lookup_AllowOrigin (cfg : Config) (ctx : RequestCtx) :
    (annotate cfg ctx).Response.Header.Lookup HeaderAccessControlAllowOrigin
      = if isAllowedOrigin cfg.AllowedOrigins (ctx.Request.Header.Peek HeaderOrigin) = true
        then some (ctx.Request.Header.Peek HeaderOrigin)
        else ctx.Response.Header.Lookup HeaderAccessControlAllowOrigin := by
  unfold annotate
  by_cases ha : isAllowedOrigin cfg.AllowedOrigins (ctx.Request.Header.Peek HeaderOrigin) = true
  · by_cases hm : ctx.Request.Method = MethodOptions <;>
      simp [ha, hm, annotatePreflight, annotateCommon, condSet_Lookup_other, condSet_Lookup_pos,
    condSet_Lookup_neg, setResponseHeader_Lookup_other, setResponseHeader_Lookup_same,
    HeaderVary, HeaderAccessControlAllowOrigin, HeaderAccessControlAllowCredentials,
    HeaderAccessControlExposeHeaders, HeaderAccessControlAllowHeaders,
    HeaderAccessControlAllowMethods, HeaderAccessControlMaxAge]
  · simp [ha]

theorem annotate_Lookup_Vary (cfg : Config) (ctx : RequestCtx) :
    (annotate cfg ctx).Response.Header.Lookup HeaderVary
      = if isAllowedOrigin cfg.AllowedOrigins (ctx.Request.Header.Peek HeaderOrigin) = true
        then some (varyValue (ctx.Response.Header.Peek HeaderVary))
        else ctx.Response.Header.Lookup HeaderVary := by
  unfold annotate
  by_cases ha : isAllowedOrigin cfg.AllowedOrigins (ctx.Request.Header.Peek HeaderOrigin) = true
  · by_cases hm : ctx.Request.Method = MethodOptions <;>
      simp [ha, hm, condSet_Peek_other, setResponseHeader_Peek_other, annotatePreflight, annotateCommon, condSet_Lookup_other, condSet_Lookup_pos,
    condSet_Lookup_neg, setResponseHeader_Lookup_other, setResponseHeader_Lookup_same,
    HeaderVary, HeaderAccessControlAllowOrigin, HeaderAccessControlAllowCredentials,
    HeaderAccessControlExposeHeaders, HeaderAccessControlAllowHeaders,
    HeaderAccessControlAllowMethods, HeaderAccessControlMaxAge]
  · simp [ha]

theorem annotate_Lookup_AllowCredentials (cfg : Config) (ctx : RequestCtx) :
    (annotate cfg ctx).Response.Header.Lookup HeaderAccessControlAllowCredentials
      = if isAllowedOrigin cfg.AllowedOrigins (ctx.Request.Header.Peek HeaderOrigin) = true
          ∧ cfg.AllowCredentials = true
        then some "true"
        else ctx.Response.Header.Lookup HeaderAccessControlAllowCredentials := by
  unfold annotate
  by_cases ha : isAllowedOrigin cfg.AllowedOrigins (ctx.Request.Header.Peek HeaderOrigin) = true
  · by_cases hm : ctx.Request.Method = MethodOptions <;>
      by_cases hc : cfg.AllowCredentials = true <;>
      simp [ha, hm, hc, annotatePreflight, annotateCommon, condSet_Lookup_other, condSet_Lookup_pos,
    condSet_Lookup_neg, setResponseHeader_Lookup_other, setResponseHeader_Lookup_same,
    HeaderVary, HeaderAccessControlAllowOrigin, HeaderAccessControlAllowCredentials,
    HeaderAccessControlExposeHeaders, HeaderAccessControlAllowHeaders,
    HeaderAccessControlAllowMethods, HeaderAccessControlMaxAge]
  · simp [ha]

theorem annotate_Lookup_ExposeHeaders (cfg : Config) (ctx : RequestCtx) :
    (annotate cfg ctx).Response.Header.Lookup HeaderAccessControlExposeHeaders
      = if isAllowedOrigin cfg.AllowedOrigins (ctx.Request.Header.Peek HeaderOrigin) = true
          ∧ 0 < cfg.ExposedHeaders.length
        then some (stringsJoin cfg.ExposedHeaders strHeaderDelim)
        else ctx.Response.Header.Lookup HeaderAccessControlExposeHeaders := by
  unfold annotate
  by_cases ha : isAllowedOrigin cfg.AllowedOrigins (ctx.Request.Header.Peek HeaderOrigin) = true
  · by_cases hm : ctx.Request.Method = MethodOptions <;>
      by_cases hc : 0 < cfg.ExposedHeaders.length <;>
      simp [ha, hm, hc, annotatePreflight, annotateCommon, condSet_Lookup_other, condSet_Lookup_pos,
    condSet_Lookup_neg, setResponseHeader_Lookup_other, setResponseHeader_Lookup_same,
    HeaderVary, HeaderAccessControlAllowOrigin, HeaderAccessControlAllowCredentials,
    HeaderAccessControlExposeHeaders, HeaderAccessControlAllowHeaders,
    HeaderAccessControlAllowMethods, HeaderAccessControlMaxAge]
  · simp [ha]

theorem annotate_Lookup_AllowHeaders (cfg : Config) (ctx : RequestCtx) :
    (annotate cfg ctx).Response.Header.Lookup HeaderAccessControlAllowHeaders
      = if isAllowedOrigin cfg.AllowedOrigins (ctx.Request.Header.Peek HeaderOrigin) = true
          ∧ ctx.Request.Method = MethodOptions ∧ 0 < cfg.AllowedHeaders.length
        then some (stringsJoin cfg.AllowedHeaders strHeaderDelim)
        else ctx.Response.Header.Lookup HeaderAccessControlAllowHeaders := by
  unfold annotate
  by_cases ha : isAllowedOrigin cfg.AllowedOrigins (ctx.Request.Header.Peek HeaderOrigin) = true
  · by_cases hm : ctx.Request.Method = MethodOptions <;>
      by_cases hc : 0 < cfg.AllowedHeaders.length <;>
      simp [ha, hm, hc, annotatePreflight, annotateCommon, condSet_Lookup_other, condSet_Lookup_pos,
    condSet_Lookup_neg, setResponseHeader_Lookup_other, setResponseHeader_Lookup_same,
    HeaderVary, HeaderAccessControlAllowOrigin, HeaderAccessControlAllowCredentials,
    HeaderAccessControlExposeHeaders, HeaderAccessControlAllowHeaders,
    HeaderAccessControlAllowMethods, HeaderAccessControlMaxAge]
  · simp [ha]

theorem annotate_Lookup_AllowMethods (cfg : Config) (ctx : RequestCtx) :
    (annotate cfg ctx).Response.Header.Lookup HeaderAccessControlAllowMethods
      = if isAllowedOrigin cfg.AllowedOrigins (ctx.Request.Header.Peek HeaderOrigin) = true
          ∧ ctx.Request.Method = MethodOptions ∧ 0 < cfg.AllowedMethods.length
        then some (stringsJoin cfg.AllowedMethods strHeaderDelim)
        else ctx.Response.Header.Lookup HeaderAccessControlAllowMethods := by
  unfold annotate
  by_cases ha : isAllowedOrigin cfg.AllowedOrigins (ctx.Request.Header.Peek HeaderOrigin) = true
  · by_cases hm : ctx.Request.Method = MethodOptions <;>
      by_cases hc : 0 < cfg.AllowedMethods.length <;>
      simp [ha, hm, hc, annotatePreflight, annotateCommon, condSet_Lookup_other, condSet_Lookup_pos,
    condSet_Lookup_neg, setResponseHeader_Lookup_other, setResponseHeader_Lookup_same,
    HeaderVary, HeaderAccessControlAllowOrigin, HeaderAccessControlAllowCredentials,
    HeaderAccessControlExposeHeaders, HeaderAccessControlAllowHeaders,
    HeaderAccessControlAllowMethods, HeaderAccessControlMaxAge]
  · simp [ha]

theorem annotate_Lookup_MaxAge (cfg : Config) (ctx : RequestCtx) :
    (annotate cfg ctx).Response.Header.Lookup HeaderAccessControlMaxAge
      = if isAllowedOrigin cfg.AllowedOrigins (ctx.Request.Header.Peek HeaderOrigin) = true
          ∧ ctx.Request.Method = MethodOptions ∧ 0 < cfg.AllowMaxAge
        then some (Itoa cfg.AllowMaxAge)
        else ctx.Response.Header.Lookup HeaderAccessControlMaxAge := by
  unfold annotate
  by_cases ha : isAllowedOrigin cfg.AllowedOrigins (ctx.Request.Header.Peek HeaderOrigin) = true
  · by_cases hm : ctx.Request.Method = MethodOptions <;>
      by_cases hc : 0 < cfg.AllowMaxAge <;>
      simp [ha, hm, hc, annotatePreflight, annotateCommon, condSet_Lookup_other, condSet_Lookup_pos,
    condSet_Lookup_neg, setResponseHeader_Lookup_other, setResponseHeader_Lookup_same,
    HeaderVary, HeaderAccessControlAllowOrigin, HeaderAccessControlAllowCredentials,
    HeaderAccessControlExposeHeaders, HeaderAccessControlAllowHeaders,
    HeaderAccessControlAllowMethods, HeaderAccessControlMaxAge]
  · simp [ha]

theorem Peek_of_Lookup_some (h : Header) (key v : String) (hl : h.Lookup key = some v) :
    h.Peek key = v := by
  rw [Header.Peek_eq_Lookup, hl]
  rfl

theorem isAllowedOrigin_congr (a b : List String) (o : String)
    (hab : ∀ x, x ∈ a ↔ x ∈ b) : isAllowedOrigin a o = isAllowedOrigin b o := by
  rw [Bool.eq_iff_iff, isAllowedOrigin_eq_true, isAllowedOrigin_eq_true, hab o, hab "*"]

theorem varyValue_eq (v : String) :
    varyValue v = if v = "" then "Origin" else v ++ ", Origin" := by
  by_cases hv : v = ""
  · subst hv
    rfl
  · have hpos := (String_length_pos_iff v).2 hv
    simp only [varyValue, hpos, if_true, hv, if_false, strHeaderDelim, HeaderOrigin,
      String.append_assoc]
    rfl

theorem varyValue_ne (v : String) : varyValue v ≠ v := by
  intro h
  have hl := congrArg String.length h
  rw [varyValue_eq] at hl
  split_ifs at hl with hv
  · subst hv
    exact absurd hl (by decide)
  · rw [String.length_append] at hl
    have h8 : ", Origin".length = 8 := by decide
    omega

theorem varyValue_ne_empty (v : String) : varyValue v ≠ "" := by
  intro h
  have hl := congrArg String.length h
  rw [varyValue_eq] at hl
  split_ifs at hl with hv
  · exact absurd hl (by decide)
  · rw [String.length_append] at hl
    have h8 : ", Origin".length = 8 := by decide
    have h0 : "".length = 0 := rfl
    omega

/-- The middleware run, read at the response headers: those of the context handed to
`Next`, whatever the host. -/
theorem New_Header {ε : Type} (cfg : Config) (host : RequestCtx → Option ε) (ctx : RequestCtx) :
    (New cfg host ctx).1.Response.Header = (annotate cfg ctx).Response.Header := by
  rw [New_eq_Next_annotate, Next_fst_Response]

theorem Header.Peek_of_Lookup_none (h : Header) (key : String) (hl : h.Lookup key = none) :
    h.Peek key = "" := by
  rw [Header.Peek_eq_Lookup, hl]
  rfl

/-- On the allowed path the response always changes: `Vary` grows. -/
theorem annotate_Response_ne (cfg : Config) (ctx : RequestCtx)
    (ha : isAllowedOrigin cfg.AllowedOrigins (ctx.Request.Header.Peek HeaderOrigin) = true) :
    (annotate cfg ctx).Response ≠ ctx.Response := by
  intro h
  have hl := annotate_Lookup_Vary cfg ctx
  rw [if_pos ha, h] at hl
  have hp := Peek_of_Lookup_some _ _ _ hl
  exact varyValue_ne _ hp.symm

/-- Running the annotation on the outcome of a first run: the request is the same, so the
same branch is taken and the same values are written. -/
theorem annotate_twice_Lookup (cfg : Config) (ctx : RequestCtx) (key : String)
    (c : Request → Prop) [∀ r, Decidable (c r)] (w : Request → String)
    (hspec : ∀ x : RequestCtx, (annotate cfg x).Response.Header.Lookup key
      = if c x.Request then some (w x.Request) else x.Response.Header.Lookup key) :
    (annotate cfg (annotate cfg ctx)).Response.Header.Lookup key
      = (annotate cfg ctx).Response.Header.Lookup key := by
  rw [hspec (annotate cfg ctx), annotate_Request, hspec ctx]
  split_ifs <;> rfl

theorem New_New_Header {ε : Type} (cfg : Config) (host : RequestCtx → Option ε)
    (ctx : RequestCtx) :
    (New cfg host (New cfg host ctx).1).1.Response.Header
      = (annotate cfg (annotate cfg ctx)).Response.Header := by
  rw [New_Header]
  apply annotate_Header_congr
  · rw [New_eq_Next_annotate]
    rfl
  · rw [New_eq_Next_annotate]
    rfl
  · rw [New_Header]

/-! ## Claims, continued -/

/-- C11: write frame.  For every policy, request and initial response headers, a response
header whose name is not one of `Access-Control-Allow-Origin`,
`Access-Control-Allow-Credentials`, `Vary`, `Access-Control-Expose-Headers`,
`Access-Control-Allow-Headers`, `Access-Control-Allow-Methods`, `Access-Control-Max-Age`
is after the middleware as before (same entry, same value); the response body is
untouched; and the request (method, URI, headers, body) is unchanged. -/
theorem New_write_frame {ε : Type} (cfg : Config) (host : RequestCtx → Option ε)
    (ctx : RequestCtx) (key : String)
    (hkey : key ∉ ["Access-Control-Allow-Origin", "Access-Control-Allow-Credentials", "Vary",
      "Access-Control-Expose-Headers", "Access-Control-Allow-Headers",
      "Access-Control-Allow-Methods", "Access-Control-Max-Age"]) :
    ((New cfg host ctx).1.Response.Header.Lookup key = ctx.Response.Header.Lookup key ∧
        (New cfg host ctx).1.Response.Header.Peek key = ctx.Response.Header.Peek key) ∧
      (New cfg host ctx).1.Response.Body = ctx.Response.Body ∧
      (New cfg host ctx).1.Request = ctx.Request := by
  simp only [List.mem_cons, List.mem_singleton, List.not_mem_nil, or_false, not_or] at hkey
  obtain ⟨h1, h2, h3, h4, h5, h6, h7⟩ := hkey
  rw [New_eq_Next_annotate]
  refine ⟨unchanged_of_Lookup_eq _ _ _ ?_, annotate_Body cfg ctx, annotate_Request cfg ctx⟩
  exact annotate_Lookup_other cfg ctx key (Ne.symm h1) (Ne.symm h2) (Ne.symm h3) (Ne.symm h4)
    (Ne.symm h5) (Ne.symm h6) (Ne.symm h7)

theorem New_write_frame_witness :
    isAllowedOrigin cfgA.AllowedOrigins "https://cors.test" = true ∧
      ((New cfgA hostOk (ctxRich "OPTIONS" "https://cors.test")).1.Response.Header.Lookup
            "Content-Type" = some "text/plain" ∧
        (New cfgA hostOk (ctxRich "OPTIONS" "https://cors.test")).1.Response.Header.Peek
            "Content-Type" = "text/plain") ∧
      (New cfgA hostOk (ctxRich "OPTIONS" "https://cors.test")).1.Response.Body = "ok" ∧
      (New cfgA hostOk (ctxRich "OPTIONS" "https://cors.test")).1.Request
        = (ctxRich "OPTIONS" "https://cors.test").Request :=
  ⟨by decide,
    New_write_frame cfgA hostOk (ctxRich "OPTIONS" "https://cors.test") "Content-Type"
      (by decide)⟩

/-- C12: max-age value.  For every policy with `AllowMaxAge = n > 0` and every request with
method `"OPTIONS"` and an allowed origin, after the middleware runs
`Access-Control-Max-Age` is `strconv.Itoa(n)`, and that string is the canonical base-10
text of `n`: it is non-empty, made of the digits `0`..`9` only (no sign), does not start
with `0`, and parsing it as a decimal integer gives back `n`. -/
theorem New_max_age_value {ε : Type} (cfg : Config) (host : RequestCtx → Option ε)
    (ctx : RequestCtx)
    (hallow : ctx.Request.Header.Peek HeaderOrigin ∈ cfg.AllowedOrigins
      ∨ "*" ∈ cfg.AllowedOrigins)
    (hm : ctx.Request.Method = "OPTIONS") (hage : 0 < cfg.AllowMaxAge) :
    (New cfg host ctx).1.Response.Header.Peek "Access-Control-Max-Age" = Itoa cfg.AllowMaxAge ∧
      ((New cfg host ctx).1.Response.Header.Peek "Access-Control-Max-Age").data ≠ [] ∧
      (∀ c ∈ ((New cfg host ctx).1.Response.Header.Peek "Access-Control-Max-Age").data, c.isDigit = true) ∧
      ((New cfg host ctx).1.Response.Header.Peek "Access-Control-Max-Age").data.head? ≠ some '0' ∧
      (parseDecimal ((New cfg host ctx).1.Response.Header.Peek "Access-Control-Max-Age")).map Int.ofNat = some cfg.AllowMaxAge := by
  have ha := (isAllowedOrigin_eq_true _ _).2 hallow
  have hval : (New cfg host ctx).1.Response.Header.Peek "Access-Control-Max-Age" = Itoa cfg.AllowMaxAge := by
    rw [New_eq_Next_annotate, Next_fst_Response]
    apply Peek_of_Lookup_some
    have hl := annotate_Lookup_MaxAge cfg ctx
    rw [if_pos ⟨ha, hm, hage⟩] at hl
    exact hl
  obtain ⟨hne, hdig, hhead, hv⟩ := toDigits_canonical cfg.AllowMaxAge.toNat
  have hpos : 0 < cfg.AllowMaxAge.toNat := by omega
  have hdata : ((New cfg host ctx).1.Response.Header.Peek "Access-Control-Max-Age").data = Nat.toDigits 10 cfg.AllowMaxAge.toNat := by
    rw [hval, Itoa_of_pos _ hage, Nat_repr_data]
  refine ⟨hval, ?_, ?_, ?_, ?_⟩
  · rw [hdata]
    exact hne
  · rw [hdata]
    exact hdig
  · rw [hdata]
    exact hhead hpos
  · have hall : (Nat.toDigits 10 cfg.AllowMaxAge.toNat).all Char.isDigit = true :=
      List.all_eq_true.2 hdig
    simp only [parseDecimal, hdata, hne, hall, ne_eq, not_false_eq_true, and_self, if_true,
      Option.map_some', hv]
    congr 1
    exact Int.toNat_of_nonneg (le_of_lt hage)

theorem New_max_age_value_witness :
    (New cfgA hostOk (mkCtx "OPTIONS" "https://cors.test" "Accept-Encoding")).1.Response.Header.Peek
        "Access-Control-Max-Age" = "5600" ∧
      parseDecimal "5600" = some 5600 :=
  ⟨(New_max_age_value cfgA hostOk (mkCtx "OPTIONS" "https://cors.test" "Accept-Encoding")
      (by decide) (by decide) (by decide)).1, by decide⟩

/-- C13: no partial state is visible downstream.  The response headers that `Next`
observes when the middleware calls it are the final ones of the run (under any host), so
nothing is mutated after `Next`; on the not-allowed path they are the initial headers (no
mutation applied); on the allowed path every applicable mutation is already in them:
`Access-Control-Allow-Origin`, `Vary`, `Access-Control-Allow-Credentials` when enabled,
`Access-Control-Expose-Headers` when configured, and for `OPTIONS` also
`Access-Control-Allow-Headers`, `Access-Control-Allow-Methods` and `Access-Control-Max-Age`
when configured. -/
theorem New_Next_observes_final_headers {ε : Type} (cfg : Config)
    (host : RequestCtx → Option ε) (ctx : RequestCtx) :
    (New cfg hostObserve ctx).2 = some (New cfg host ctx).1.Response.Header ∧
      (isAllowedOrigin cfg.AllowedOrigins (ctx.Request.Header.Peek HeaderOrigin) = false →
        (New cfg hostObserve ctx).2 = some ctx.Response.Header) ∧
      (isAllowedOrigin cfg.AllowedOrigins (ctx.Request.Header.Peek HeaderOrigin) = true →
        ∃ seen : Header, (New cfg hostObserve ctx).2 = some seen ∧
          seen.Peek "Access-Control-Allow-Origin" = ctx.Request.Header.Peek HeaderOrigin ∧
          seen.Peek "Vary" = (if ctx.Response.Header.Peek "Vary" = "" then "Origin"
            else ctx.Response.Header.Peek "Vary" ++ ", Origin") ∧
          (cfg.AllowCredentials = true →
            seen.Peek "Access-Control-Allow-Credentials" = "true") ∧
          (cfg.ExposedHeaders ≠ [] →
            seen.Peek "Access-Control-Expose-Headers" = ", ".intercalate cfg.ExposedHeaders) ∧
          (ctx.Request.Method = "OPTIONS" →
            (cfg.AllowedHeaders ≠ [] →
              seen.Peek "Access-Control-Allow-Headers"
                = ", ".intercalate cfg.AllowedHeaders) ∧
            (cfg.AllowedMethods ≠ [] →
              seen.Peek "Access-Control-Allow-Methods"
                = ", ".intercalate cfg.AllowedMethods) ∧
            (0 < cfg.AllowMaxAge →
              seen.Peek "Access-Control-Max-Age" = Itoa cfg.AllowMaxAge))) := by
  have hseen : (New cfg hostObserve ctx).2 = some (annotate cfg ctx).Response.Header := by
    rw [New_eq_Next_annotate]
    rfl
  refine ⟨by rw [hseen, New_Header], fun hd => ?_, fun ha => ?_⟩
  · rw [hseen, annotate_denied cfg ctx (by simp [hd])]
  · refine ⟨(annotate cfg ctx).Response.Header, hseen, ?_, ?_, fun hc => ?_, fun he => ?_,
      fun hm => ⟨fun hh => ?_, fun hh => ?_, fun hh => ?_⟩⟩
    · apply Peek_of_Lookup_some
      have hl := annotate_Lookup_AllowOrigin cfg ctx
      rwa [if_pos ha] at hl
    · rw [← varyValue_eq]
      apply Peek_of_Lookup_some
      have hl := annotate_Lookup_Vary cfg ctx
      rwa [if_pos ha] at hl
    · apply Peek_of_Lookup_some
      have hl := annotate_Lookup_AllowCredentials cfg ctx
      rwa [if_pos ⟨ha, hc⟩] at hl
    · apply Peek_of_Lookup_some
      have hl := annotate_Lookup_ExposeHeaders cfg ctx
      rwa [if_pos ⟨ha, (List_length_pos_iff _).2 he⟩, stringsJoin_eq_intercalate] at hl
    · apply Peek_of_Lookup_some
      have hl := annotate_Lookup_AllowHeaders cfg ctx
      rwa [if_pos ⟨ha, hm, (List_length_pos_iff _).2 hh⟩, stringsJoin_eq_intercalate] at hl
    · apply Peek_of_Lookup_some
      have hl := annotate_Lookup_AllowMethods cfg ctx
      rwa [if_pos ⟨ha, hm, (List_length_pos_iff _).2 hh⟩, stringsJoin_eq_intercalate] at hl
    · apply Peek_of_Lookup_some
      have hl := annotate_Lookup_MaxAge cfg ctx
      rwa [if_pos ⟨ha, hm, hh⟩] at hl

theorem New_Next_observes_final_headers_witness :
    (New cfgA hostObserve (mkCtx "OPTIONS" "https://cors.test" "Accept-Encoding")).2
        = some (New cfgA (hostFail "boom")
            (mkCtx "OPTIONS" "https://cors.test" "Accept-Encoding")).1.Response.Header ∧
      (New cfgA hostObserve (mkCtx "OPTIONS" "https://cors.test" "Accept-Encoding")).2
        = some [("Vary", "Accept-Encoding, Origin"),
            ("Access-Control-Allow-Origin", "https://cors.test"),
            ("Access-Control-Allow-Credentials", "true"),
            ("Access-Control-Expose-Headers", "Content-Length, Authorization"),
            ("Access-Control-Allow-Headers", "Content-Type, X-Custom"),
            ("Access-Control-Allow-Methods", "GET, POST, DELETE"),
            ("Access-Control-Max-Age", "5600")] ∧
      (New cfgC hostObserve (mkCtx "POST" "https://cors.test" "")).2 = some [("Vary", "")] :=
  ⟨(New_Next_observes_final_headers cfgA (hostFail "boom")
      (mkCtx "OPTIONS" "https://cors.test" "Accept-Encoding")).1,
    by decide,
    (New_Next_observes_final_headers cfgC hostOk
      (mkCtx "POST" "https://cors.test" "")).2.1 (by decide)⟩

/-- C14: a missing `Origin` is the empty string and is handled like any other origin.
For a request without `Origin` header (or with an empty one) the origin read is `""`, and
the middleware changes the response if and only if `AllowedOrigins` contains `""` or
`"*"`; with `AllowedOrigins = ["https://other.domain.test"]` the response is unchanged,
while with `AllowedOrigins = ["*"]` the header `Access-Control-Allow-Origin` is set, to the
empty string, and `Origin` is added to `Vary`. -/
theorem New_missing_origin {ε : Type} (cfg : Config) (host : RequestCtx → Option ε)
    (ctx : RequestCtx)
    (hmiss : ctx.Request.Header.Lookup "Origin" = none
      ∨ ctx.Request.Header.Lookup "Origin" = some "") :
    ctx.Request.Header.Peek "Origin" = "" ∧
      ((New cfg host ctx).1.Response ≠ ctx.Response
        ↔ "" ∈ cfg.AllowedOrigins ∨ "*" ∈ cfg.AllowedOrigins) ∧
      (cfg.AllowedOrigins = ["https://other.domain.test"] →
        (New cfg host ctx).1.Response = ctx.Response) ∧
      (cfg.AllowedOrigins = ["*"] →
        (New cfg host ctx).1.Response.Header.Lookup "Access-Control-Allow-Origin" = some "" ∧
          (New cfg host ctx).1.Response.Header.Peek "Vary"
            = (if ctx.Response.Header.Peek "Vary" = "" then "Origin"
                else ctx.Response.Header.Peek "Vary" ++ ", Origin")) := by
  have ho : ctx.Request.Header.Peek HeaderOrigin = "" :=
    hmiss.elim (fun h => Header.Peek_of_Lookup_none _ _ h)
      (fun h => Peek_of_Lookup_some _ _ _ h)
  have hiff : isAllowedOrigin cfg.AllowedOrigins (ctx.Request.Header.Peek HeaderOrigin) = true
      ↔ "" ∈ cfg.AllowedOrigins ∨ "*" ∈ cfg.AllowedOrigins := by
    rw [isAllowedOrigin_eq_true, ho]
  rw [New_eq_Next_annotate, Next_fst_Response]
  refine ⟨ho, ⟨fun hne => ?_, fun hin => annotate_Response_ne cfg ctx (hiff.2 hin)⟩,
    fun hS => ?_, fun hS => ?_⟩
  · by_contra hnot
    exact hne (by rw [annotate_denied cfg ctx (fun ha => hnot (hiff.1 ha))])
  · rw [annotate_denied cfg ctx]
    rw [hiff, hS]
    decide
  · have ha : isAllowedOrigin cfg.AllowedOrigins (ctx.Request.Header.Peek HeaderOrigin)
        = true := by
      rw [hiff, hS]
      decide
    refine ⟨?_, ?_⟩
    · have hl := annotate_Lookup_AllowOrigin cfg ctx
      rwa [if_pos ha, ho] at hl
    · rw [← varyValue_eq]
      apply Peek_of_Lookup_some
      have hl := annotate_Lookup_Vary cfg ctx
      rwa [if_pos ha] at hl

theorem New_missing_origin_witness :
    (ctxNoOrigin "POST" "").Request.Header.Lookup "Origin" = none ∧
      (New cfgC hostOk (ctxNoOrigin "POST" "")).1.Response = (ctxNoOrigin "POST" "").Response ∧
      (New cfgC hostOk (mkCtx "POST" "" "")).1.Response = (mkCtx "POST" "" "").Response ∧
      (New cfgB hostOk (ctxNoOrigin "POST" "")).1.Response.Header.Lookup
        "Access-Control-Allow-Origin" = some "" ∧
      (New cfgB hostOk (ctxNoOrigin "POST" "")).1.Response.Header.Peek "Vary" = "Origin" ∧
      (New cfgB hostOk (ctxNoOrigin "POST" "")).1.Response ≠ (ctxNoOrigin "POST" "").Response :=
  ⟨rfl,
    (New_missing_origin cfgC hostOk (ctxNoOrigin "POST" "") (Or.inl rfl)).2.2.1 (by decide),
    (New_missing_origin cfgC hostOk (mkCtx "POST" "" "") (Or.inr rfl)).2.2.1 (by decide),
    ((New_missing_origin cfgB hostOk (ctxNoOrigin "POST" "") (Or.inl rfl)).2.2.2
      (by decide)).1,
    ((New_missing_origin cfgB hostOk (ctxNoOrigin "POST" "") (Or.inl rfl)).2.2.2
      (by decide)).2,
    (New_missing_origin cfgB hostOk (ctxNoOrigin "POST" "") (Or.inl rfl)).2.1.2
      (by decide)⟩

/-- C15: determinism and non-interference.  For a fixed policy, two invocations whose
requests agree on the `Origin` header value and on the method, and whose initial response
headers are equal, end with equal response headers, whatever the other request headers,
the URI, the bodies and the hosts are. -/
theorem New_depends_only_on_origin_method_headers {ε₁ ε₂ : Type} (cfg : Config)
    (host₁ : RequestCtx → Option ε₁) (host₂ : RequestCtx → Option ε₂)
    (ctx₁ ctx₂ : RequestCtx)
    (ho : ctx₁.Request.Header.Peek "Origin" = ctx₂.Request.Header.Peek "Origin")
    (hm : ctx₁.Request.Method = ctx₂.Request.Method)
    (hr : ctx₁.Response.Header = ctx₂.Response.Header) :
    (New cfg host₁ ctx₁).1.Response.Header = (New cfg host₂ ctx₂).1.Response.Header := by
  rw [New_Header, New_Header]
  exact annotate_Header_congr cfg ctx₁ ctx₂ ho hm hr

theorem New_depends_only_on_origin_method_headers_witness :
    (ctxRich "OPTIONS" "https://cors.test").Request
        ≠ (ctxRichOther "OPTIONS" "https://cors.test").Request ∧
      (New cfgA hostOk (ctxRich "OPTIONS" "https://cors.test")).1.Response.Header
        = (New cfgA hostObserve (ctxRichOther "OPTIONS" "https://cors.test")).1.Response.Header :=
  ⟨by decide,
    New_depends_only_on_origin_method_headers cfgA hostOk hostObserve
      (ctxRich "OPTIONS" "https://cors.test") (ctxRichOther "OPTIONS" "https://cors.test")
      (by decide) (by decide) (by decide)⟩

/-- C16: `Access-Control-Allow-Origin` is never written with a non-permitted value.  If its
entry or its value after the middleware runs differs from the one before, then the new
value is the request `Origin` and `isAllowedOrigin` holds of it; and whatever value the
header has afterwards is the request `Origin` or the value it had before (never an entry
of the configured list or `"*"` as such). -/
theorem New_allow_origin_only_request_origin {ε : Type} (cfg : Config)
    (host : RequestCtx → Option ε) (ctx : RequestCtx)
    (hdiff : (New cfg host ctx).1.Response.Header.Lookup "Access-Control-Allow-Origin"
          ≠ ctx.Response.Header.Lookup "Access-Control-Allow-Origin"
        ∨ (New cfg host ctx).1.Response.Header.Peek "Access-Control-Allow-Origin"
          ≠ ctx.Response.Header.Peek "Access-Control-Allow-Origin") :
    (New cfg host ctx).1.Response.Header.Peek "Access-Control-Allow-Origin"
        = ctx.Request.Header.Peek "Origin" ∧
      isAllowedOrigin cfg.AllowedOrigins (ctx.Request.Header.Peek "Origin") = true ∧
      (∀ v, (New cfg host ctx).1.Response.Header.Lookup "Access-Control-Allow-Origin" = some v →
        v = ctx.Request.Header.Peek "Origin"
          ∨ ctx.Response.Header.Lookup "Access-Control-Allow-Origin" = some v) := by
  rw [New_Header] at hdiff ⊢
  have hl := annotate_Lookup_AllowOrigin cfg ctx
  by_cases ha : isAllowedOrigin cfg.AllowedOrigins (ctx.Request.Header.Peek HeaderOrigin) = true
  · rw [if_pos ha] at hl
    refine ⟨Peek_of_Lookup_some _ _ _ hl, ha, fun v hv => Or.inl ?_⟩
    have hv2 : (annotate cfg ctx).Response.Header.Lookup HeaderAccessControlAllowOrigin
        = some v := hv
    rw [hl] at hv2
    exact (Option.some.inj hv2).symm
  · exfalso
    rw [annotate_denied cfg ctx ha] at hdiff
    exact hdiff.elim (fun h => h rfl) (fun h => h rfl)

theorem New_allow_origin_only_request_origin_witness :
    cfgB.AllowedOrigins = ["*"] ∧
      (New cfgB hostOk (mkCtx "POST" "https://cors.test" "")).1.Response.Header.Peek
        "Access-Control-Allow-Origin" = "https://cors.test" ∧
      isAllowedOrigin cfgB.AllowedOrigins "https://cors.test" = true :=
  ⟨rfl,
    (New_allow_origin_only_request_origin cfgB hostOk (mkCtx "POST" "https://cors.test" "")
      (Or.inl (by decide))).1,
    (New_allow_origin_only_request_origin cfgB hostOk (mkCtx "POST" "https://cors.test" "")
      (Or.inl (by decide))).2.1⟩

/-- C17: re-application is idempotent on the `Access-Control-*` headers but not on `Vary`.
For every policy, allowed request and initial response headers, running the middleware a
second time on the outcome of the first run leaves `Access-Control-Allow-Origin`,
`-Allow-Credentials`, `-Expose-Headers`, `-Allow-Headers`, `-Allow-Methods` and `-Max-Age`
as the first run left them (same entry, same value), whereas `Vary` gets `", Origin"`
appended once more, so it ends with `"Origin, Origin"` and differs from the value after
one run. -/
theorem New_twice_idempotent_except_Vary {ε : Type} (cfg : Config)
    (host : RequestCtx → Option ε) (ctx : RequestCtx)
    (hallow : ctx.Request.Header.Peek HeaderOrigin ∈ cfg.AllowedOrigins
      ∨ "*" ∈ cfg.AllowedOrigins) :
    (∀ key ∈ ["Access-Control-Allow-Origin", "Access-Control-Allow-Credentials",
        "Access-Control-Expose-Headers", "Access-Control-Allow-Headers",
        "Access-Control-Allow-Methods", "Access-Control-Max-Age"],
        (New cfg host (New cfg host ctx).1).1.Response.Header.Lookup key = (New cfg host ctx).1.Response.Header.Lookup key ∧ (New cfg host (New cfg host ctx).1).1.Response.Header.Peek key = (New cfg host ctx).1.Response.Header.Peek key) ∧
      (New cfg host (New cfg host ctx).1).1.Response.Header.Peek "Vary" = (New cfg host ctx).1.Response.Header.Peek "Vary" ++ ", Origin" ∧
      (∃ p, (New cfg host (New cfg host ctx).1).1.Response.Header.Peek "Vary" = p ++ "Origin, Origin") ∧
      (New cfg host (New cfg host ctx).1).1.Response.Header.Peek "Vary" ≠ (New cfg host ctx).1.Response.Header.Peek "Vary" := by
  have ha := (isAllowedOrigin_eq_true _ _).2 hallow
  have ha2 : isAllowedOrigin cfg.AllowedOrigins
      ((annotate cfg ctx).Request.Header.Peek HeaderOrigin) = true := by
    rw [annotate_Request]
    exact ha
  rw [New_New_Header, New_Header]
  have honce : (annotate cfg ctx).Response.Header.Peek "Vary"
      = varyValue (ctx.Response.Header.Peek "Vary") := by
    apply Peek_of_Lookup_some
    have hl := annotate_Lookup_Vary cfg ctx
    rwa [if_pos ha] at hl
  have htwice : (annotate cfg (annotate cfg ctx)).Response.Header.Peek "Vary"
      = (annotate cfg ctx).Response.Header.Peek "Vary" ++ ", Origin" := by
    have hl := annotate_Lookup_Vary cfg (annotate cfg ctx)
    rw [if_pos ha2] at hl
    refine (Peek_of_Lookup_some _ _ _ hl).trans ?_
    have h2 : (annotate cfg ctx).Response.Header.Peek HeaderVary
        = varyValue (ctx.Response.Header.Peek "Vary") := honce
    rw [varyValue_eq, if_neg]
    · rfl
    · rw [h2]
      exact varyValue_ne_empty _
  refine ⟨?_, htwice, ?_, ?_⟩
  · intro key hkey
    simp only [List.mem_cons, List.mem_singleton, List.not_mem_nil, or_false] at hkey
    refine unchanged_of_Lookup_eq _ _ _ ?_
    rcases hkey with h | h | h | h | h | h <;> subst h
    · exact annotate_twice_Lookup cfg ctx _
        (fun r => isAllowedOrigin cfg.AllowedOrigins (r.Header.Peek HeaderOrigin) = true)
        (fun r => r.Header.Peek HeaderOrigin) (fun x => annotate_Lookup_AllowOrigin cfg x)
    · exact annotate_twice_Lookup cfg ctx _
        (fun r => isAllowedOrigin cfg.AllowedOrigins (r.Header.Peek HeaderOrigin) = true ∧ cfg.AllowCredentials = true)
        (fun _ => "true") (fun x => annotate_Lookup_AllowCredentials cfg x)
    · exact annotate_twice_Lookup cfg ctx _
        (fun r => isAllowedOrigin cfg.AllowedOrigins (r.Header.Peek HeaderOrigin) = true ∧ 0 < cfg.ExposedHeaders.length)
        (fun _ => stringsJoin cfg.ExposedHeaders strHeaderDelim)
        (fun x => annotate_Lookup_ExposeHeaders cfg x)
    · exact annotate_twice_Lookup cfg ctx _
        (fun r => isAllowedOrigin cfg.AllowedOrigins (r.Header.Peek HeaderOrigin) = true ∧ r.Method = MethodOptions ∧ 0 < cfg.AllowedHeaders.length)
        (fun _ => stringsJoin cfg.AllowedHeaders strHeaderDelim)
        (fun x => annotate_Lookup_AllowHeaders cfg x)
    · exact annotate_twice_Lookup cfg ctx _
        (fun r => isAllowedOrigin cfg.AllowedOrigins (r.Header.Peek HeaderOrigin) = true ∧ r.Method = MethodOptions ∧ 0 < cfg.AllowedMethods.length)
        (fun _ => stringsJoin cfg.AllowedMethods strHeaderDelim)
        (fun x => annotate_Lookup_AllowMethods cfg x)
    · exact annotate_twice_Lookup cfg ctx _
        (fun r => isAllowedOrigin cfg.AllowedOrigins (r.Header.Peek HeaderOrigin) = true ∧ r.Method = MethodOptions ∧ 0 < cfg.AllowMaxAge)
        (fun _ => Itoa cfg.AllowMaxAge) (fun x => annotate_Lookup_MaxAge cfg x)
  · rw [htwice, honce, varyValue_eq]
    split_ifs
    · exact ⟨"", rfl⟩
    · refine ⟨ctx.Response.Header.Peek "Vary" ++ ", ", ?_⟩
      simp only [String.append_assoc]
      rfl
  · rw [htwice]
    intro h
    have hl := congrArg String.length h
    rw [String.length_append] at hl
    have h8 : ", Origin".length = 8 := by decide
    omega

theorem New_twice_idempotent_except_Vary_witness :
    (New cfgA hostOk (New cfgA hostOk
        (mkCtx "OPTIONS" "https://cors.test" "Accept-Encoding")).1).1.Response.Header.Peek "Vary"
      = "Accept-Encoding, Origin, Origin" ∧
    (New cfgA hostOk (New cfgA hostOk
        (mkCtx "OPTIONS" "https://cors.test" "Accept-Encoding")).1).1.Response.Header.Peek
          "Access-Control-Allow-Origin" = "https://cors.test" ∧
    (New cfgA hostOk (New cfgA hostOk
        (mkCtx "OPTIONS" "https://cors.test" "Accept-Encoding")).1).1.Response.Header.Peek
          "Access-Control-Max-Age" = "5600" :=
  ⟨(New_twice_idempotent_except_Vary cfgA hostOk
      (mkCtx "OPTIONS" "https://cors.test" "Accept-Encoding") (by decide)).2.1,
    ((New_twice_idempotent_except_Vary cfgA hostOk
      (mkCtx "OPTIONS" "https://cors.test" "Accept-Encoding") (by decide)).1
        "Access-Control-Allow-Origin" (by decide)).2,
    ((New_twice_idempotent_except_Vary cfgA hostOk
      (mkCtx "OPTIONS" "https://cors.test" "Accept-Encoding") (by decide)).1
        "Access-Control-Max-Age" (by decide)).2⟩

/-- C18: `isAllowedOrigin` distributes over list concatenation and ignores order and
duplicates.  For all lists `a`, `b` and every string `o`:
`isAllowedOrigin (a ++ b) o = (isAllowedOrigin a o || isAllowedOrigin b o)`; the result is
the same for every permutation of the list, and more generally for every list with the
same elements (so duplicating entries changes nothing); and it is monotone: adding entries
never turns an allowed origin into a denied one. -/
theorem isAllowedOrigin_append_perm_dup_mono (a b : List String) (o : String) :
    isAllowedOrigin (a ++ b) o = (isAllowedOrigin a o || isAllowedOrigin b o) ∧
      (List.Perm a b → isAllowedOrigin a o = isAllowedOrigin b o) ∧
      ((∀ x, x ∈ a ↔ x ∈ b) → isAllowedOrigin a o = isAllowedOrigin b o) ∧
      isAllowedOrigin (a ++ a) o = isAllowedOrigin a o ∧
      (∀ x, isAllowedOrigin (x :: x :: a) o = isAllowedOrigin (x :: a) o) ∧
      (a ⊆ b → isAllowedOrigin a o = true → isAllowedOrigin b o = true) ∧
      (isAllowedOrigin a o = true →
        isAllowedOrigin (a ++ b) o = true ∧ isAllowedOrigin (b ++ a) o = true) := by
  have happ : ∀ l₁ l₂ : List String,
      isAllowedOrigin (l₁ ++ l₂) o = (isAllowedOrigin l₁ o || isAllowedOrigin l₂ o) := by
    intro l₁ l₂
    rw [Bool.eq_iff_iff, Bool.or_eq_true, isAllowedOrigin_eq_true, isAllowedOrigin_eq_true,
      isAllowedOrigin_eq_true, List.mem_append, List.mem_append]
    tauto
  refine ⟨happ a b, fun hp => isAllowedOrigin_congr a b o (fun x => hp.mem_iff),
    isAllowedOrigin_congr a b o, ?_, fun x => ?_, fun hsub h => ?_, fun h => ⟨?_, ?_⟩⟩
  · rw [happ, Bool.or_self]
  · exact isAllowedOrigin_congr _ _ o (fun y => by simp)
  · rw [isAllowedOrigin_eq_true] at h ⊢
    exact h.imp (fun h1 => hsub h1) (fun h1 => hsub h1)
  · rw [happ, h, Bool.true_or]
  · rw [happ, h, Bool.or_true]

theorem isAllowedOrigin_append_perm_dup_mono_witness :
    isAllowedOrigin (["https://other.domain.test"] ++ ["https://cors.test"]) "https://cors.test"
        = true ∧
      isAllowedOrigin ["https://other.domain.test", "https://cors.test"] "https://cors.test"
        = isAllowedOrigin ["https://cors.test", "https://other.domain.test"]
            "https://cors.test" ∧
      isAllowedOrigin ["https://cors.test", "*", "https://cors.test"] "other" = true :=
  ⟨(isAllowedOrigin_append_perm_dup_mono ["https://other.domain.test"] ["https://cors.test"]
      "https://cors.test").1.trans (by decide),
    (isAllowedOrigin_append_perm_dup_mono ["https://other.domain.test", "https://cors.test"]
      ["https://cors.test", "https://other.domain.test"] "https://cors.test").2.1
        (List.Perm.swap _ _ _),
    (isAllowedOrigin_append_perm_dup_mono ["*"]
      ["https://cors.test", "*", "https://cors.test"] "other").2.2.2.2.2.1
        (by decide) (by decide)⟩

end Cors
